import Mathlib

/-!
# Genealogical tree: person records, child links, printer and teardown

A shallow embedding of `src/structures.cpp` and `src/families/mainFamily.cpp`.

* Pointers are `Option Nat`: `none` is `nullptr`, `some a` is the address `a`.
* The free store is a list of cells indexed by address; a cell is `some p` while the
  object is alive and `none` once it was deleted. `new` takes the next index.
* Recursive procedures over the pointer graph carry a recursion budget (first argument):
  the graph may be cyclic, in which case the C++ recursion does not return. The result
  `none` stands for "no result" (budget exhausted or a dangling pointer dereferenced).
* `std::cout` is modelled by the list of records written, one per output statement;
  `Linha.texto` is the text of one record and `textoSaida` the whole stream.
-/

namespace Genealogia

/-! ## Data model -/

/-- A `Pessoa*` (or `Familia*`) value. -/
abbrev Ptr := Option Nat

/-- The record `struct Pessoa` of `structures.cpp`, with the member `familiaOrigem` that
`criarPessoa` assigns (declared in `structuresFamily.cpp`). -/
structure Pessoa where
  nome : String
  dataNascimento : String
  genero : Char
  pai : Ptr
  filhos : List Ptr
  familiaOrigem : Ptr
deriving DecidableEq, Repr

/-- The free store: cell `a` is `some p` while the object at address `a` is alive. -/
abbrev Estado := List (Option Pessoa)

/-- Dereference `a`: the object stored there, `none` when there is no live object. -/
def ler (e : Estado) (a : Nat) : Option Pessoa := (e[a]?).join

/-- Store `p` in cell `a`. -/
def escrever (e : Estado) (a : Nat) (p : Pessoa) : Estado := e.set a (some p)

/-- The effect of `delete`: the cell becomes dead. -/
def liberar (e : Estado) (a : Nat) : Estado := e.set a none

/-- The values that the scalar members of a freshly allocated `Pessoa` hold:
`new Pessoa` default-initialises, so `genero`, `pai` and `familiaOrigem` receive no
initial value and keep whatever the storage contained. -/
structure Indeterminado where
  genero : Char
  pai : Ptr
  familiaOrigem : Ptr
deriving DecidableEq, Repr

/-! ## Tree builder -/

/-- Source `Pessoa* criarPessoa(nome, data, genero, familiaOrigem)`: allocate, assign the four
members the source assigns, return the new address. `pai` is not assigned. -/
def criarPessoa (e : Estado) (lixo : Indeterminado) (nome data : String) (genero : Char)
    (familiaOrigem : Ptr) : Estado × Ptr :=
  let novaPessoa : Pessoa :=
    { nome := "", dataNascimento := "", genero := lixo.genero, pai := lixo.pai,
      filhos := [], familiaOrigem := lixo.familiaOrigem }
  let novaPessoa := { novaPessoa with nome := nome }
  let novaPessoa := { novaPessoa with dataNascimento := data }
  let novaPessoa := { novaPessoa with genero := genero }
  let novaPessoa := { novaPessoa with familiaOrigem := familiaOrigem }
  (e ++ [some novaPessoa], some e.length)

/-- Source `void adicionarFilho(Pessoa* pai, Pessoa* filho)`: when both pointers are
non-null, push `filho` at the back of `pai->filhos`, then set `filho->pai`. -/
def adicionarFilho (e : Estado) (pai filho : Ptr) : Option Estado :=
  match pai, filho with
  | some p, some f =>
    match ler e p with
    | none => none
    | some regPai =>
      let e1 := escrever e p { regPai with filhos := regPai.filhos ++ [some f] }
      match ler e1 f with
      | none => none
      | some regFilho => some (escrever e1 f { regFilho with pai := some p })
  | _, _ => some e

/-! ## Tree printer -/

/-- One output statement of the printer: the operands streamed to `std::cout`. -/
structure Linha where
  prefixo : String
  glifo : String
  nome : String
  dataNascimento : String
  genero : Char
deriving DecidableEq, Repr

/-- The characters one output statement writes. -/
def Linha.texto (l : Linha) : String :=
  l.prefixo ++ l.glifo ++ l.nome ++ " (" ++ l.dataNascimento ++ ", "
    ++ String.singleton l.genero ++ ")\n"

/-- The whole stream. -/
def textoSaida (s : List Linha) : String := String.join (s.map Linha.texto)

/-- The loop `for (i = 0; i < size; ++i) visita(filhos[i], i + 1 == size)`, entered at
index `i` with the elements from `i` on still to visit. -/
def lacoFilhos (visita : Ptr → Bool → Option (List Linha)) (tamanho : Nat) :
    Nat → List Ptr → Option (List Linha)
  | _, [] => some []
  | i, f :: resto =>
    let eUltimo := (i + 1 == tamanho)
    match visita f eUltimo with
    | none => none
    | some a =>
      match lacoFilhos visita tamanho (i + 1) resto with
      | none => none
      | some b => some (a ++ b)

/-- Source `void imprimirArvoreRec(const Pessoa* no, const std::string& prefixo, bool ultimo)`:
nothing for a null pointer; otherwise one record, then the loop over the children. -/
def imprimirArvoreRec : Nat → Estado → Ptr → String → Bool → Option (List Linha)
  | _, _, none, _, _ => some []
  | 0, _, some _, _, _ => none
  | n + 1, e, some a, prefixo, ultimo =>
    match ler e a with
    | none => none
    | some no =>
      let linha : Linha :=
        ⟨prefixo, if ultimo then "└── " else "├── ", no.nome, no.dataNascimento, no.genero⟩
      match lacoFilhos
          (fun f eUltimo =>
            imprimirArvoreRec n e f (prefixo ++ (if ultimo then "    " else "│   ")) eUltimo)
          no.filhos.length 0 no.filhos with
      | none => none
      | some resto => some (linha :: resto)

/-- Source `void imprimirArvore(const Pessoa* raiz)`: nothing for a null root; otherwise
the root record without prefix and glyph, then the loop over the children. -/
def imprimirArvore (n : Nat) (e : Estado) (raiz : Ptr) : Option (List Linha) :=
  match raiz with
  | none => some []
  | some a =>
    match ler e a with
    | none => none
    | some no =>
      let linha : Linha := ⟨"", "", no.nome, no.dataNascimento, no.genero⟩
      match lacoFilhos (fun f eUltimo => imprimirArvoreRec n e f "" eUltimo)
          no.filhos.length 0 no.filhos with
      | none => none
      | some resto => some (linha :: resto)

/-! ## Teardown -/

/-- The loop `for (Pessoa* f : filhos) destruir(f)`: the store is threaded through and the
addresses released are collected in order. -/
def lacoDestruir (destruir : Estado → Ptr → Option (Estado × List Nat)) :
    Estado → List Ptr → Option (Estado × List Nat)
  | e, [] => some (e, [])
  | e, f :: resto =>
    match destruir e f with
    | none => none
    | some (e1, l1) =>
      match lacoDestruir destruir e1 resto with
      | none => none
      | some (e2, l2) => some (e2, l1 ++ l2)

/-- Source `void destruirArvore(Pessoa* raiz)`: returns the store afterwards and the addresses
passed to `delete`, in the order of the calls. Deleting a dead object gives no result. -/
def destruirArvore : Nat → Estado → Ptr → Option (Estado × List Nat)
  | _, e, none => some (e, [])
  | 0, _, some _ => none
  | n + 1, e, some a =>
    match ler e a with
    | none => none
    | some raiz =>
      match lacoDestruir (destruirArvore n) e raiz.filhos with
      | none => none
      | some (e1, l1) =>
        match ler e1 a with
        | none => none
        | some _ => some (liberar e1 a, l1 ++ [a])

/-! ## Entry point -/

/-- What a run of `main` leaves behind. -/
structure Execucao where
  saida : List Linha
  estado : Estado
  liberados : List Nat
  codigo : Int
deriving DecidableEq, Repr

/-- Source `int main()`. The calls of `criarPessoa` in the source pass three arguments; the
fourth (`familiaOrigem`) is taken from `fam`, and the indeterminate contents of the k-th
allocation from `lixo k`. `n` is the recursion budget of the two traversals. -/
def main (n : Nat) (lixo : Nat → Indeterminado) (fam : Nat → Ptr) : Option Execucao :=
  let e : Estado := []
  let (e, avo) := criarPessoa e (lixo 0) "Avô" "1945-01-01" 'M' (fam 0)
  let (e, pai) := criarPessoa e (lixo 1) "Pai" "1970-06-15" 'M' (fam 1)
  let (e, tia) := criarPessoa e (lixo 2) "Tia" "1972-09-20" 'F' (fam 2)
  match adicionarFilho e avo pai with
  | none => none
  | some e =>
  match adicionarFilho e avo tia with
  | none => none
  | some e =>
  let (e, filho1) := criarPessoa e (lixo 3) "Filho" "1995-03-10" 'M' (fam 3)
  let (e, filha2) := criarPessoa e (lixo 4) "Filha" "1998-11-05" 'F' (fam 4)
  match adicionarFilho e pai filho1 with
  | none => none
  | some e =>
  match adicionarFilho e pai filha2 with
  | none => none
  | some e =>
  match imprimirArvore n e avo with
  | none => none
  | some saida =>
  match destruirArvore n e avo with
  | none => none
  | some (e, liberados) => some ⟨saida, e, liberados, 0⟩

/-! ## Finite trees

The claims speak of "finite trees"; a store represents one when the pointer graph below a
root unfolds into a value of the inductive type `Arvore`. -/

/-- The three printed fields of a person. -/
structure Registro where
  nome : String
  dataNascimento : String
  genero : Char
deriving DecidableEq, Repr

/-- The printed fields of a stored person. -/
def Pessoa.registro (p : Pessoa) : Registro := ⟨p.nome, p.dataNascimento, p.genero⟩

/-- The printed fields of an output record. -/
def Linha.registro (l : Linha) : Registro := ⟨l.nome, l.dataNascimento, l.genero⟩

/-- A finite ordered tree with labels in `α`. -/
inductive Arvore (α : Type) where
  | no (rotulo : α) (filhos : List (Arvore α)) : Arvore α

/-- Label of the root. -/
def Arvore.rotulo {α : Type} : Arvore α → α
  | .no r _ => r

/-- Child sequence of the root. -/
def Arvore.filhos {α : Type} : Arvore α → List (Arvore α)
  | .no _ ts => ts

mutual
/-- Number of nodes on the longest root-to-leaf chain. -/
def Arvore.altura {α : Type} : Arvore α → Nat
  | .no _ ts => alturaLista ts + 1
/-- Largest height in a sequence of trees. -/
def alturaLista {α : Type} : List (Arvore α) → Nat
  | [] => 0
  | t :: ts => max t.altura (alturaLista ts)
end

mutual
/-- Depth-first pre-order listing of the labels, children in stored order. -/
def Arvore.preOrdem {α : Type} : Arvore α → List α
  | .no r ts => r :: preOrdemLista ts
/-- Pre-order listing of a sequence of trees. -/
def preOrdemLista {α : Type} : List (Arvore α) → List α
  | [] => []
  | t :: ts => t.preOrdem ++ preOrdemLista ts
end

mutual
/-- Post-order listing of the labels: every child subtree first, the root last. -/
def Arvore.posOrdem {α : Type} : Arvore α → List α
  | .no r ts => posOrdemLista ts ++ [r]
/-- Post-order listing of a sequence of trees. -/
def posOrdemLista {α : Type} : List (Arvore α) → List α
  | [] => []
  | t :: ts => t.posOrdem ++ posOrdemLista ts
end

mutual
/-- Relabel every node. -/
def Arvore.mapa {α β : Type} (f : α → β) : Arvore α → Arvore β
  | .no r ts => .no (f r) (mapaLista f ts)
/-- Relabel every node of a sequence of trees. -/
def mapaLista {α β : Type} (f : α → β) : List (Arvore α) → List (Arvore β)
  | [] => []
  | t :: ts => t.mapa f :: mapaLista f ts
end

/-- Number of nodes. -/
def Arvore.tamanho {α : Type} (t : Arvore α) : Nat := t.preOrdem.length

/-- A tree of the store: every node carries its address and its printed fields. -/
abbrev ArvoreMem := Arvore (Nat × Registro)

/-- The tree of printed fields, addresses dropped. -/
def ArvoreMem.dados (t : ArvoreMem) : Arvore Registro := t.mapa Prod.snd

/-- The tree of addresses. -/
def ArvoreMem.enderecos (t : ArvoreMem) : List Nat := t.preOrdem.map Prod.fst

mutual
/-- In store `e` the pointer `q` is the root of the finite tree `t`: `q` is the address
in the root label, the object there is alive, has the label's fields, and its child
sequence points, element by element, to the child trees. -/
def Representa (e : Estado) : ArvoreMem → Ptr → Prop
  | .no (a, r) ts, q =>
    q = some a ∧ ∃ p, ler e a = some p ∧ p.registro = r ∧ RepresentaLista e ts p.filhos
/-- Element by element, the pointers are roots of the trees. -/
def RepresentaLista (e : Estado) : List ArvoreMem → List Ptr → Prop
  | [], qs => qs = []
  | _ :: _, [] => False
  | t :: ts, q :: qs => Representa e t q ∧ RepresentaLista e ts qs
end

mutual
/-- The records the recursive printer writes for a finite tree. -/
def desenhaRec : Arvore Registro → String → Bool → List Linha
  | .no r ts, prefixo, ultimo =>
    ⟨prefixo, if ultimo then "└── " else "├── ", r.nome, r.dataNascimento, r.genero⟩
      :: desenhaFilhos ts (prefixo ++ (if ultimo then "    " else "│   "))
/-- The records written for a child sequence; the last one gets the flag. -/
def desenhaFilhos : List (Arvore Registro) → String → List Linha
  | [], _ => []
  | t :: ts, prefixo => desenhaRec t prefixo ts.isEmpty ++ desenhaFilhos ts prefixo
end

/-- The records the printer writes for a finite tree. -/
def desenha : Arvore Registro → List Linha
  | .no r ts => ⟨"", "", r.nome, r.dataNascimento, r.genero⟩ :: desenhaFilhos ts ""

/-! ## Claim C1: the output of `main` -/

/-- The five lines of the expected rendering. -/
def linhasExemplo : List String :=
  ["Avô (1945-01-01, M)",
   "├── Pai (1970-06-15, M)",
   "│   ├── Filho (1995-03-10, M)",
   "│   └── Filha (1998-11-05, F)",
   "└── Tia (1972-09-20, F)"]

/-! ## A concrete store: the tree that `main` builds -/

/-- The store after the five `criarPessoa` and four `adicionarFilho` calls of `main`
(with null for the indeterminate members and the `familiaOrigem` arguments). -/
def estadoExemplo : Estado :=
  [some ⟨"Avô", "1945-01-01", 'M', none, [some 1, some 2], none⟩,
   some ⟨"Pai", "1970-06-15", 'M', some 0, [some 3, some 4], none⟩,
   some ⟨"Tia", "1972-09-20", 'F', some 0, [], none⟩,
   some ⟨"Filho", "1995-03-10", 'M', some 1, [], none⟩,
   some ⟨"Filha", "1998-11-05", 'F', some 1, [], none⟩]

/-- The finite tree rooted at address 0 of `estadoExemplo`. -/
def arvoreExemplo : ArvoreMem :=
  .no (0, ⟨"Avô", "1945-01-01", 'M'⟩)
    [.no (1, ⟨"Pai", "1970-06-15", 'M'⟩)
       [.no (3, ⟨"Filho", "1995-03-10", 'M'⟩) [], .no (4, ⟨"Filha", "1998-11-05", 'F'⟩) []],
     .no (2, ⟨"Tia", "1972-09-20", 'F'⟩) []]

/-! ## Nodes by path, and the line the specification gives for a node -/

/-- The subtree reached from the root by following the child indices of `cam`. -/
def Arvore.sub {α : Type} : Arvore α → List Nat → Option (Arvore α)
  | t, [] => some t
  | .no _ ts, i :: cam =>
    match ts[i]? with
    | none => none
    | some c => c.sub cam

mutual
/-- The paths of all nodes, in depth-first pre-order. -/
def Arvore.caminhos {α : Type} : Arvore α → List (List Nat)
  | .no _ ts => [] :: caminhosLista ts 0
/-- The paths of the nodes of a child sequence whose first element has index `i`. -/
def caminhosLista {α : Type} : List (Arvore α) → Nat → List (List Nat)
  | [], _ => []
  | t :: ts, i => t.caminhos.map (fun c => i :: c) ++ caminhosLista ts (i + 1)
end

/-- The node at `cam` is the last child in its parent's child sequence. -/
def ultimoFilho {α : Type} (t : Arvore α) (cam : List Nat) : Bool :=
  match cam.getLast?, t.sub cam.dropLast with
  | some i, some pai => i + 1 == pai.filhos.length
  | _, _ => false

/-- The glyph of the specification: corner for a last child, tee otherwise. -/
def glifoDe {α : Type} (t : Arvore α) (cam : List Nat) : String :=
  if ultimoFilho t cam then "└── " else "├── "

/-- The segment of the specification: four spaces for a last child, bar otherwise. -/
def segDe {α : Type} (t : Arvore α) (cam : List Nat) : String :=
  if ultimoFilho t cam then "    " else "│   "

/-- The text `name (birthDate, gender)` of a node. -/
def Registro.base (r : Registro) : String :=
  r.nome ++ " (" ++ r.dataNascimento ++ ", " ++ String.singleton r.genero ++ ")"

/-- The line the specification gives for the node at `cam`, whose ancestor chain is
`a0 = root, a1, ..., ad` with `ak` the node at the first `k` indices of `cam`:
`seg(a1) ++ ... ++ seg(a(d-1)) ++ glyph(ad) ++ base`, and just `base` for the root. -/
def linhaEsperada (t : Arvore Registro) (cam : List Nat) : String :=
  match t.sub cam with
  | none => ""
  | some n =>
    if cam = [] then n.rotulo.base
    else
      String.join ((List.range (cam.length - 1)).map (fun k => segDe t (cam.take (k + 1))))
        ++ glifoDe t cam ++ n.rotulo.base

/-- The running prefix handed to the children of the node at `cam`: the segments of the
nodes at the first `1, ..., cam.length` indices of `cam`. -/
def prefixoFilhos {α : Type} (t : Arvore α) (cam : List Nat) : String :=
  String.join ((List.range cam.length).map (fun k => segDe t (cam.take (k + 1))))

/-! ## Call sequences -/

/-- The calls `adicionarFilho(p, d1); ...; adicionarFilho(p, dn)` in that order. -/
def adicionarFilhos (e : Estado) (p : Nat) : List Nat → Option Estado
  | [] => some e
  | d :: ds =>
    match adicionarFilho e (some p) (some d) with
    | none => none
    | some e1 => adicionarFilhos e1 p ds

/-! ## Reachable stores -/

/-- The stores reachable from the empty store by calls of `criarPessoa` and
`adicionarFilho` (with any arguments for which the call returns). -/
inductive Alcancavel : Estado → Prop
  | vazio : Alcancavel []
  | criar (e : Estado) (lixo : Indeterminado) (nome data : String) (genero : Char)
      (fam : Ptr) : Alcancavel e → Alcancavel (criarPessoa e lixo nome data genero fam).1
  | adicionar (e e1 : Estado) (pai filho : Ptr) :
      Alcancavel e → adicionarFilho e pai filho = some e1 → Alcancavel e1

/-- Every person occurs in the child sequence of at most one person, and at most once
there. -/
def NoMaximoUmPai (e : Estado) : Prop :=
  ∀ c : Nat,
    (∀ a b ra rb, ler e a = some ra → ler e b = some rb →
      some c ∈ ra.filhos → some c ∈ rb.filhos → a = b) ∧
    (∀ a ra, ler e a = some ra → ra.filhos.count (some c) ≤ 1)

/-- The person at `c` occurs in no child sequence. -/
def SemPai (e : Estado) (c : Nat) : Prop :=
  ∀ a ra, ler e a = some ra → some c ∉ ra.filhos

/-- The stores reachable by calls of `criarPessoa` and `adicionarFilho` in which no
person is attached a second time: whenever `adicionarFilho` is called with two non-null
pointers, the child occurs in no child sequence at the time of the call. -/
inductive AlcancavelUmaVez : Estado → Prop
  | vazio : AlcancavelUmaVez []
  | criar (e : Estado) (lixo : Indeterminado) (nome data : String) (genero : Char)
      (fam : Ptr) :
      AlcancavelUmaVez e → AlcancavelUmaVez (criarPessoa e lixo nome data genero fam).1
  | adicionar (e e1 : Estado) (pai filho : Ptr) :
      AlcancavelUmaVez e → (∀ p c, pai = some p → filho = some c → SemPai e c) →
      adicionarFilho e pai filho = some e1 → AlcancavelUmaVez e1

/-- Three persons after `adicionarFilho(0, 2); adicionarFilho(1, 2)`. -/
def estadoDoisPais : Estado :=
  [some ⟨"A", "1", 'F', none, [some 2], none⟩,
   some ⟨"B", "2", 'M', none, [some 2], none⟩,
   some ⟨"C", "3", 'F', some 1, [], none⟩]

/-- Two persons after `adicionarFilho(0, 1); adicionarFilho(0, 1)`. -/
def estadoDuasVezes : Estado :=
  [some ⟨"A", "1", 'F', none, [some 1, some 1], none⟩,
   some ⟨"B", "2", 'M', some 0, [], none⟩]

/-! ## Reading a rendering back -/

/-- The fields of a person can be read back from its line: no newline in the name and no
opening parenthesis in the birth date. -/
def Registro.Limpo (r : Registro) : Prop :=
  '\n' ∉ r.nome.data ∧ '(' ∉ r.dataNascimento.data

/-- Every person of the tree has fields that can be read back. -/
def Arvore.Limpa (t : Arvore Registro) : Prop := ∀ r ∈ t.preOrdem, r.Limpo

/-- The segment a node contributes to the prefix of its descendants. -/
def segmento (ultimo : Bool) : String := if ultimo then "    " else "│   "

/-- The glyph in front of a non-root node. -/
def glifo (ultimo : Bool) : String := if ultimo then "└── " else "├── "

/-- The prefix made of the segments of the given last-child flags. -/
def segmentos (anc : List Bool) : String := String.join (anc.map segmento)

/-- An entry of the outline of a tree: the last-child flags of the proper ancestors
below the root, the node's own flag, and its fields. -/
abbrev Entrada := List Bool × Bool × Registro

/-- The record printed for an outline entry. -/
def Entrada.linha (x : Entrada) : Linha :=
  ⟨segmentos x.1, glifo x.2.1, x.2.2.nome, x.2.2.dataNascimento, x.2.2.genero⟩

mutual
/-- The outline below a non-root node: one entry per node, in pre-order. -/
def esbocoRec : Arvore Registro → List Bool → Bool → List Entrada
  | .no r ts, anc, ultimo => (anc, ultimo, r) :: esbocoFilhos ts (anc ++ [ultimo])
/-- The outline of a child sequence. -/
def esbocoFilhos : List (Arvore Registro) → List Bool → List Entrada
  | [], _ => []
  | t :: ts, anc => esbocoRec t anc ts.isEmpty ++ esbocoFilhos ts anc
end

/-- What is read off one line of a rendering: the characters before the separator
`" ("` (prefix, glyph and name), the characters of the birth date, and the gender. -/
abbrev Peca := List Char × List Char × Char

/-- The characters of the line of a piece, newline included. -/
def Peca.texto (w : Peca) : List Char :=
  w.1 ++ ' ' :: '(' :: (w.2.1 ++ [',', ' ', w.2.2, ')', '\n'])

/-- The piece of the root line: no prefix, no glyph. -/
def Registro.peca (r : Registro) : Peca :=
  (r.nome.data, r.dataNascimento.data, r.genero)

/-- The piece of the line of an outline entry. -/
def Entrada.peca (x : Entrada) : Peca :=
  ((segmentos x.1).data ++ ((glifo x.2.1).data ++ x.2.2.nome.data),
    x.2.2.dataNascimento.data, x.2.2.genero)

/-! ## Stores whose renderings coincide -/

/-- A person "A" with one child "B". -/
def estadoPaiFilho : Estado :=
  [some ⟨"A", "d", 'M', none, [some 1], none⟩, some ⟨"B", "d", 'M', some 0, [], none⟩]

/-- The tree of `estadoPaiFilho`. -/
def arvorePaiFilho : ArvoreMem := .no (0, ⟨"A", "d", 'M'⟩) [.no (1, ⟨"B", "d", 'M'⟩) []]

/-- A single person whose name holds a newline and a glyph. -/
def estadoNomeQuebrado : Estado :=
  [some ⟨"A (d, M)\n└── B", "d", 'M', none, [], none⟩]

/-- The tree of `estadoNomeQuebrado`. -/
def arvoreNomeQuebrado : ArvoreMem := .no (0, ⟨"A (d, M)\n└── B", "d", 'M'⟩) []

/-- A single person named "A" born "B (C". -/
def estadoParentesesData : Estado := [some ⟨"A", "B (C", 'M', none, [], none⟩]

/-- The tree of `estadoParentesesData`. -/
def arvoreParentesesData : ArvoreMem := .no (0, ⟨"A", "B (C", 'M'⟩) []

/-- A single person named "A (B" born "C". -/
def estadoParentesesNome : Estado := [some ⟨"A (B", "C", 'M', none, [], none⟩]

/-- The tree of `estadoParentesesNome`. -/
def arvoreParentesesNome : ArvoreMem := .no (0, ⟨"A (B", "C", 'M'⟩) []

/-- The persons of `estadoExemplo` stored in the opposite order, the root at address 4. -/
def estadoEspelho : Estado :=
  [some ⟨"Filha", "1998-11-05", 'F', some 3, [], none⟩,
   some ⟨"Filho", "1995-03-10", 'M', some 3, [], none⟩,
   some ⟨"Tia", "1972-09-20", 'F', some 4, [], none⟩,
   some ⟨"Pai", "1970-06-15", 'M', some 4, [some 1, some 0], none⟩,
   some ⟨"Avô", "1945-01-01", 'M', none, [some 3, some 2], none⟩]

/-- The finite tree rooted at address 4 of `estadoEspelho`. -/
def arvoreEspelho : ArvoreMem :=
  .no (4, ⟨"Avô", "1945-01-01", 'M'⟩)
    [.no (3, ⟨"Pai", "1970-06-15", 'M'⟩)
       [.no (1, ⟨"Filho", "1995-03-10", 'M'⟩) [], .no (0, ⟨"Filha", "1998-11-05", 'F'⟩) []],
     .no (2, ⟨"Tia", "1972-09-20", 'F'⟩) []]

/-! ## Prepending to the running prefix -/

/-- The record `l` with `p` prepended to its prefix. -/
def Linha.prefixar (p : String) (l : Linha) : Linha := { l with prefixo := p ++ l.prefixo }

/-- The subtree rooted at address 1 ("Pai") of `estadoExemplo`. -/
def arvoreSubExemplo : ArvoreMem :=
  .no (1, ⟨"Pai", "1970-06-15", 'M'⟩)
    [.no (3, ⟨"Filho", "1995-03-10", 'M'⟩) [], .no (4, ⟨"Filha", "1998-11-05", 'F'⟩) []]

/-! ## What the printer reads of a person -/

/-- The members of a person other than the back-references `pai` and `familiaOrigem`. -/
def Pessoa.impresso (p : Pessoa) : String × String × Char × List Ptr :=
  (p.nome, p.dataNascimento, p.genero, p.filhos)

/-- The store `estadoExemplo` with the parent references replaced by arbitrary ones:
null, the person itself, a child, a dangling address. -/
def estadoPaisTrocados : Estado :=
  [some ⟨"Avô", "1945-01-01", 'M', some 3, [some 1, some 2], some 5⟩,
   some ⟨"Pai", "1970-06-15", 'M', none, [some 3, some 4], none⟩,
   some ⟨"Tia", "1972-09-20", 'F', some 2, [], none⟩,
   some ⟨"Filho", "1995-03-10", 'M', some 99, [], some 1⟩,
   some ⟨"Filha", "1998-11-05", 'F', some 0, [], none⟩]

/-! # Theorems -/

/-- The run of `main` in full: output records, final store, release order, exit code. -/
theorem main_resultado (k : Nat) (lixo : Nat → Indeterminado) (fam : Nat → Ptr) :
    main (k + 3) lixo fam = some
      ⟨[⟨"", "", "Avô", "1945-01-01", 'M'⟩,
        ⟨"", "├── ", "Pai", "1970-06-15", 'M'⟩,
        ⟨"│   ", "├── ", "Filho", "1995-03-10", 'M'⟩,
        ⟨"│   ", "└── ", "Filha", "1998-11-05", 'F'⟩,
        ⟨"", "└── ", "Tia", "1972-09-20", 'F'⟩],
       [none, none, none, none, none], [3, 4, 1, 2, 0], 0⟩ := by
  simp [main, criarPessoa, adicionarFilho, ler, escrever, liberar, imprimirArvore,
    imprimirArvoreRec, lacoFilhos, destruirArvore, lacoDestruir]

/-- C1: whatever the uninitialised members and the `familiaOrigem` arguments are, and
for every recursion budget of at least three, `main` runs to completion and its output
is exactly the five lines of the example, in order, each followed by a newline. -/
theorem C1_main_output (k : Nat) (lixo : Nat → Indeterminado) (fam : Nat → Ptr) :
    ∃ r, main (k + 3) lixo fam = some r ∧
      r.saida.map Linha.texto = linhasExemplo.map (fun l => l ++ "\n") ∧
      textoSaida r.saida =
        "Avô (1945-01-01, M)\n├── Pai (1970-06-15, M)\n│   ├── Filho (1995-03-10, M)\n│   └── Filha (1998-11-05, F)\n└── Tia (1972-09-20, F)\n" :=
  ⟨_, main_resultado k lixo fam, by decide, by decide⟩

/-! ## The printer on a represented tree -/

theorem representaLista_length (e : Estado) :
    ∀ (ts : List ArvoreMem) (qs : List Ptr), RepresentaLista e ts qs → qs.length = ts.length
  | [], qs, h => by simp [RepresentaLista] at h; simp [h]
  | _ :: _, [], h => by simp [RepresentaLista] at h
  | _ :: ts, _ :: qs, h => by
    simp only [RepresentaLista] at h
    simp [representaLista_length e ts qs h.2]

mutual
theorem imprimirArvoreRec_representa (e : Estado) :
    ∀ (t : ArvoreMem) (q : Ptr), Representa e t q → ∀ n, t.altura ≤ n →
      ∀ prefixo ultimo,
        imprimirArvoreRec n e q prefixo ultimo = some (desenhaRec t.dados prefixo ultimo)
  | .no (a, r) ts, q, h, n, hn, prefixo, ultimo => by
    simp only [Representa] at h
    obtain ⟨rfl, p, hp, rfl, hts⟩ := h
    cases n with
    | zero => simp [Arvore.altura] at hn
    | succ n =>
      simp only [Arvore.altura, Nat.add_le_add_iff_right] at hn
      have hl := lacoFilhos_representa e ts p.filhos hts n hn
        (prefixo ++ (if ultimo then "    " else "│   ")) p.filhos.length 0 (by simp)
      simp [imprimirArvoreRec, hp, hl, ArvoreMem.dados, Arvore.mapa, desenhaRec,
        Pessoa.registro]
theorem lacoFilhos_representa (e : Estado) :
    ∀ (ts : List ArvoreMem) (qs : List Ptr), RepresentaLista e ts qs →
      ∀ n, alturaLista ts ≤ n → ∀ prefixo tamanho i, i + qs.length = tamanho →
        lacoFilhos (fun f u => imprimirArvoreRec n e f prefixo u) tamanho i qs
          = some (desenhaFilhos (mapaLista Prod.snd ts) prefixo)
  | [], qs, h, n, _, prefixo, tamanho, i, _ => by
    simp only [RepresentaLista] at h
    simp [h, lacoFilhos, mapaLista, desenhaFilhos]
  | _ :: _, [], h, _, _, _, _, _, _ => by simp [RepresentaLista] at h
  | t :: ts, q :: qs, h, n, hn, prefixo, tamanho, i, hi => by
    simp only [RepresentaLista] at h
    simp only [alturaLista, max_le_iff] at hn
    have h1 := imprimirArvoreRec_representa e t q h.1 n hn.1 prefixo (i + 1 == tamanho)
    have h2 := lacoFilhos_representa e ts qs h.2 n hn.2 prefixo tamanho (i + 1)
      (by simp at hi; omega)
    have hlen := representaLista_length e ts qs h.2
    have hu : (i + 1 == tamanho) = (mapaLista Prod.snd ts).isEmpty := by
      cases ts with
      | nil => simp at hlen; simp [hlen] at hi; simp [mapaLista, hi]
      | cons t2 ts2 =>
        simp at hlen hi
        simp [mapaLista]
        omega
    rw [hu] at h1
    simp only [lacoFilhos, h2, mapaLista, desenhaFilhos]
    rw [hu, h1]
    rfl
end

mutual
theorem Arvore.preOrdem_mapa {α β : Type} (f : α → β) :
    ∀ t : Arvore α, (t.mapa f).preOrdem = t.preOrdem.map f
  | .no r ts => by
    simp [Arvore.mapa, Arvore.preOrdem, preOrdemLista_mapaLista f ts]
theorem preOrdemLista_mapaLista {α β : Type} (f : α → β) :
    ∀ ts : List (Arvore α), preOrdemLista (mapaLista f ts) = (preOrdemLista ts).map f
  | [] => by simp [mapaLista, preOrdemLista]
  | t :: ts => by
    simp [mapaLista, preOrdemLista, Arvore.preOrdem_mapa f t, preOrdemLista_mapaLista f ts]
end

mutual
theorem desenhaRec_registro :
    ∀ (t : Arvore Registro) (prefixo : String) (ultimo : Bool),
      (desenhaRec t prefixo ultimo).map Linha.registro = t.preOrdem
  | .no r ts, prefixo, ultimo => by
    simp [desenhaRec, Arvore.preOrdem, Linha.registro, desenhaFilhos_registro ts]
theorem desenhaFilhos_registro :
    ∀ (ts : List (Arvore Registro)) (prefixo : String),
      (desenhaFilhos ts prefixo).map Linha.registro = preOrdemLista ts
  | [], _ => by simp [desenhaFilhos, preOrdemLista]
  | t :: ts, prefixo => by
    simp [desenhaFilhos, preOrdemLista, desenhaRec_registro t, desenhaFilhos_registro ts]
end

theorem desenha_registro (t : Arvore Registro) :
    (desenha t).map Linha.registro = t.preOrdem := by
  cases t with
  | no r ts => simp [desenha, Arvore.preOrdem, Linha.registro, desenhaFilhos_registro ts]

/-- On a represented tree the printer returns, for every budget that covers the height of
the child subtrees, the records of `desenha`. -/
theorem imprimirArvore_representa (e : Estado) (t : ArvoreMem) (q : Ptr)
    (h : Representa e t q) (n : Nat) (hn : alturaLista t.filhos ≤ n) :
    imprimirArvore n e q = some (desenha t.dados) := by
  cases t with
  | no l ts =>
    obtain ⟨a, r⟩ := l
    simp only [Representa] at h
    obtain ⟨rfl, p, hp, rfl, hts⟩ := h
    have hl := lacoFilhos_representa e ts p.filhos hts n hn "" p.filhos.length 0 (by simp)
    simp [imprimirArvore, hp, hl, ArvoreMem.dados, Arvore.mapa, desenha, Pessoa.registro]

theorem alturaLista_filhos_le {α : Type} (t : Arvore α) (k : Nat) :
    alturaLista t.filhos ≤ t.altura + k := by
  cases t with
  | no r ts => simp [Arvore.altura, Arvore.filhos]; omega

theorem representa_exemplo : Representa estadoExemplo arvoreExemplo (some 0) := by
  simp [Representa, RepresentaLista, arvoreExemplo, estadoExemplo, ler, Pessoa.registro]

/-! ## The printed line of a node from its ancestor chain -/

theorem Arvore.sub_append {α : Type} :
    ∀ (c d : List Nat) (t : Arvore α), t.sub (c ++ d) = (t.sub c).bind (fun s => s.sub d)
  | [], d, t => by simp [Arvore.sub]
  | i :: c, d, .no r ts => by
    simp only [List.cons_append, Arvore.sub]
    cases h : ts[i]? with
    | none => simp
    | some s => simpa using Arvore.sub_append c d s

theorem string_join_append (l : List String) (s : String) :
    String.join (l ++ [s]) = String.join l ++ s := by
  apply String.ext
  simp

theorem prefixoFilhos_nil {α : Type} (t : Arvore α) : prefixoFilhos t [] = "" := by
  simp [prefixoFilhos, String.join]

theorem prefixoFilhos_snoc {α : Type} (t : Arvore α) (c : List Nat) (i : Nat) :
    prefixoFilhos t (c ++ [i]) = prefixoFilhos t c ++ segDe t (c ++ [i]) := by
  unfold prefixoFilhos
  rw [List.length_append, List.length_singleton, List.range_succ, List.map_append,
    List.map_singleton, string_join_append]
  congr 2
  · apply List.map_congr_left
    intro k hk
    rw [List.mem_range] at hk
    rw [List.take_append_of_le_length (by omega)]
  · rw [List.take_of_length_le (by simp)]

theorem ultimoFilho_snoc {α : Type} (t : Arvore α) (c : List Nat) (i : Nat) (r : α)
    (ts : List (Arvore α)) (h : t.sub c = some (.no r ts)) :
    ultimoFilho t (c ++ [i]) = (i + 1 == ts.length) := by
  simp [ultimoFilho, h, Arvore.filhos]

theorem linhaEsperada_snoc (t : Arvore Registro) (c : List Nat) (i : Nat)
    (s : Arvore Registro) (h : t.sub (c ++ [i]) = some s) :
    linhaEsperada t (c ++ [i]) = prefixoFilhos t c ++ glifoDe t (c ++ [i]) ++ s.rotulo.base := by
  unfold linhaEsperada prefixoFilhos
  rw [h]
  simp only [List.append_eq_nil, List.cons_ne_self, and_false, ↓reduceIte, List.length_append,
    List.length_singleton, Nat.add_sub_cancel]
  congr 3
  apply List.map_congr_left
  intro k hk
  rw [List.mem_range] at hk
  rw [List.take_append_of_le_length (by omega)]

theorem Linha.texto_eq (p g : String) (r : Registro) :
    Linha.texto ⟨p, g, r.nome, r.dataNascimento, r.genero⟩ = p ++ g ++ r.base ++ "\n" := by
  apply String.ext
  simp [Linha.texto, Registro.base]

mutual
theorem desenhaRec_texto (T : Arvore Registro) :
    ∀ (s : Arvore Registro) (c : List Nat) (i : Nat), T.sub (c ++ [i]) = some s →
      (desenhaRec s (prefixoFilhos T c) (ultimoFilho T (c ++ [i]))).map Linha.texto
        = s.caminhos.map (fun d => linhaEsperada T (c ++ [i] ++ d) ++ "\n")
  | .no r ts, c, i, h => by
    have hf := desenhaFilhos_texto T ts (c ++ [i]) r ts 0 h (by simp)
    rw [prefixoFilhos_snoc] at hf
    simp only [desenhaRec, Arvore.caminhos, List.map_cons, List.append_nil]
    rw [Linha.texto_eq, linhaEsperada_snoc T c i _ h]
    congr 1
theorem desenhaFilhos_texto (T : Arvore Registro) :
    ∀ (resto : List (Arvore Registro)) (c : List Nat) (r : Registro)
      (ts : List (Arvore Registro)) (i : Nat), T.sub c = some (.no r ts) → ts.drop i = resto →
      (desenhaFilhos resto (prefixoFilhos T c)).map Linha.texto
        = (caminhosLista resto i).map (fun d => linhaEsperada T (c ++ d) ++ "\n")
  | [], _, _, _, _, _, _ => by simp [desenhaFilhos, caminhosLista]
  | s :: resto, c, r, ts, i, h, hd => by
    have hi : ts[i]? = some s := by
      have := congrArg List.head? hd
      simpa [List.head?_drop] using this
    have hr : ts.drop (i + 1) = resto := by
      have := congrArg List.tail hd
      simpa [List.tail_drop] using this
    have hlen : ts.length = i + 1 + resto.length := by
      have := congrArg List.length hd
      simp at this
      omega
    have hs : T.sub (c ++ [i]) = some s := by
      rw [Arvore.sub_append, h]
      simp only [Option.some_bind, Arvore.sub, hi]
    have hu : ultimoFilho T (c ++ [i]) = resto.isEmpty := by
      rw [ultimoFilho_snoc T c i r ts h, hlen]
      cases resto <;> simp
    have h1 := desenhaRec_texto T s c i hs
    have h2 := desenhaFilhos_texto T resto c r ts (i + 1) h hr
    rw [hu] at h1
    simp only [desenhaFilhos, caminhosLista, List.map_append, h1, h2, List.map_map]
    congr 1
    apply List.map_congr_left
    intro d _
    simp
end

theorem desenha_texto (t : Arvore Registro) :
    (desenha t).map Linha.texto = t.caminhos.map (fun c => linhaEsperada t c ++ "\n") := by
  cases t with
  | no r ts =>
    have hf := desenhaFilhos_texto (.no r ts) ts [] r ts 0 (by simp [Arvore.sub]) (by simp)
    rw [prefixoFilhos_nil] at hf
    simp only [desenha, Arvore.caminhos, List.map_cons]
    rw [Linha.texto_eq]
    simp only [List.nil_append] at hf
    rw [hf]
    simp [linhaEsperada, Arvore.sub, Arvore.rotulo]

mutual
theorem Arvore.mem_caminhos {α : Type} :
    ∀ (t : Arvore α) (c : List Nat), c ∈ t.caminhos ↔ (t.sub c).isSome = true
  | .no r ts, c => by
    simp only [Arvore.caminhos, List.mem_cons, mem_caminhosLista ts 0 c]
    cases c with
    | nil => simp [Arvore.sub]
    | cons j d =>
      simp only [reduceCtorEq, List.cons.injEq, Nat.zero_add, false_or, Arvore.sub]
      constructor
      · rintro ⟨j2, d2, s, ⟨rfl, rfl⟩, hs, hd⟩
        rw [hs]
        exact hd
      · intro h
        cases hs : ts[j]? with
        | none => simp [hs] at h
        | some s =>
          rw [hs] at h
          exact ⟨j, d, s, ⟨rfl, rfl⟩, hs, h⟩
theorem mem_caminhosLista {α : Type} :
    ∀ (ts : List (Arvore α)) (i : Nat) (c : List Nat),
      c ∈ caminhosLista ts i ↔
        ∃ j d s, c = (i + j) :: d ∧ ts[j]? = some s ∧ (s.sub d).isSome = true
  | [], i, c => by simp [caminhosLista]
  | t :: ts, i, c => by
    simp only [caminhosLista, List.mem_append, List.mem_map, Arvore.mem_caminhos t,
      mem_caminhosLista ts (i + 1) c]
    constructor
    · rintro (⟨d, hd, rfl⟩ | ⟨j, d, s, rfl, hs, hd⟩)
      · exact ⟨0, d, t, rfl, by simp, hd⟩
      · exact ⟨j + 1, d, s, by simp; omega, by simpa using hs, hd⟩
    · rintro ⟨j, d, s, rfl, hs, hd⟩
      cases j with
      | zero =>
        simp at hs
        subst hs
        exact Or.inl ⟨d, hd, rfl⟩
      | succ j => exact Or.inr ⟨j, d, s, by simp; omega, by simpa using hs, hd⟩
end

mutual
theorem Arvore.caminhos_rotulo {α : Type} :
    ∀ (t : Arvore α), t.caminhos.map (fun c => (t.sub c).map Arvore.rotulo) = t.preOrdem.map some
  | .no r ts => by
    have h := caminhosLista_rotulo ts r ts 0 (by simp)
    simp only [Arvore.caminhos, Arvore.preOrdem, List.map_cons, h]
    simp [Arvore.sub, Arvore.rotulo]
theorem caminhosLista_rotulo {α : Type} :
    ∀ (resto : List (Arvore α)) (r : α) (ts : List (Arvore α)) (i : Nat), ts.drop i = resto →
      (caminhosLista resto i).map (fun c => ((Arvore.no r ts).sub c).map Arvore.rotulo)
        = (preOrdemLista resto).map some
  | [], _, _, _, _ => by simp [caminhosLista, preOrdemLista]
  | s :: resto, r, ts, i, hd => by
    have hi : ts[i]? = some s := by
      have := congrArg List.head? hd
      simpa [List.head?_drop] using this
    have hr : ts.drop (i + 1) = resto := by
      have := congrArg List.tail hd
      simpa [List.tail_drop] using this
    simp only [caminhosLista, preOrdemLista, List.map_append, List.map_map,
      caminhosLista_rotulo resto r ts (i + 1) hr, ← Arvore.caminhos_rotulo s]
    congr 1
    apply List.map_congr_left
    intro d _
    simp only [Function.comp_apply, Arvore.sub, hi]
end

/-- C2: on every finite tree the printer returns (for every sufficient recursion budget)
one record per node, the records following the nodes in pre-order, and the text of the
record of the node at path `cam` is the line the specification composes from the
ancestor chain of that node: the segments of `a1 .. a(d-1)`, the glyph of the node and
`name (birthDate, gender)`; for the root just the latter. Every node has a path in the
listing, and the listing holds only paths of nodes. -/
theorem C2_line_of_node (e : Estado) (t : ArvoreMem) (raiz : Ptr)
    (h : Representa e t raiz) :
    ∃ s, (∀ k, imprimirArvore (t.altura + k) e raiz = some s) ∧
      s.map Linha.texto = t.dados.caminhos.map (fun cam => linhaEsperada t.dados cam ++ "\n") ∧
      (∀ cam, cam ∈ t.dados.caminhos ↔ (t.dados.sub cam).isSome = true) ∧
      t.dados.caminhos.map (fun cam => (t.dados.sub cam).map Arvore.rotulo)
        = s.map (fun l => some l.registro) := by
  refine ⟨desenha t.dados, fun k => ?_, desenha_texto _, Arvore.mem_caminhos _, ?_⟩
  · exact imprimirArvore_representa e t raiz h _ (alturaLista_filhos_le t k)
  · rw [Arvore.caminhos_rotulo, ← desenha_registro, List.map_map]
    rfl

/-- C2 at the tree of `main`. -/
theorem C2_line_of_node_witness :
    Representa estadoExemplo arvoreExemplo (some 0) ∧
    ∃ s, (∀ k, imprimirArvore (arvoreExemplo.altura + k) estadoExemplo (some 0) = some s) ∧
      s.map Linha.texto =
        arvoreExemplo.dados.caminhos.map
          (fun cam => linhaEsperada arvoreExemplo.dados cam ++ "\n") ∧
      (∀ cam, cam ∈ arvoreExemplo.dados.caminhos ↔
        (arvoreExemplo.dados.sub cam).isSome = true) ∧
      arvoreExemplo.dados.caminhos.map (fun cam => (arvoreExemplo.dados.sub cam).map Arvore.rotulo)
        = s.map (fun l => some l.registro) :=
  ⟨representa_exemplo, C2_line_of_node estadoExemplo arvoreExemplo (some 0) representa_exemplo⟩

/-! ## The store -/

theorem ler_lt (e : Estado) (a : Nat) (p : Pessoa) (h : ler e a = some p) : a < e.length := by
  unfold ler at h
  by_contra hlt
  rw [List.getElem?_eq_none (by omega)] at h
  simp at h

theorem ler_escrever_mesmo (e : Estado) (a : Nat) (p : Pessoa) (h : a < e.length) :
    ler (escrever e a p) a = some p := by
  simp [ler, escrever, List.getElem?_set, h]

theorem ler_escrever_outro (e : Estado) (a b : Nat) (p : Pessoa) (h : a ≠ b) :
    ler (escrever e a p) b = ler e b := by
  simp [ler, escrever, List.getElem?_set, h]

theorem ler_liberar (e : Estado) (a b : Nat) :
    ler (liberar e a) b = if a = b then none else ler e b := by
  unfold ler liberar
  rw [List.getElem?_set]
  by_cases h : a = b
  · by_cases hl : a < e.length <;> simp [h, hl]
  · simp [h]

theorem length_escrever (e : Estado) (a : Nat) (p : Pessoa) :
    (escrever e a p).length = e.length := by
  simp [escrever]

/-- What `adicionarFilho` does on two live objects, in closed form. -/
theorem adicionarFilho_vivos (e : Estado) (p f : Nat) (rp rf : Pessoa)
    (hp : ler e p = some rp) (hf : ler e f = some rf) :
    ∃ rf1, ler (escrever e p { rp with filhos := rp.filhos ++ [some f] }) f = some rf1 ∧
      rf1 = (if p = f then { rp with filhos := rp.filhos ++ [some f] } else rf) ∧
      adicionarFilho e (some p) (some f)
        = some (escrever (escrever e p { rp with filhos := rp.filhos ++ [some f] }) f
            { rf1 with pai := some p }) := by
  have hlp := ler_lt e p rp hp
  by_cases hpf : p = f
  · subst hpf
    refine ⟨_, ler_escrever_mesmo e p _ hlp, by simp, ?_⟩
    simp [adicionarFilho, hp, ler_escrever_mesmo e p _ hlp]
  · have h1 : ler (escrever e p { rp with filhos := rp.filhos ++ [some f] }) f = some rf := by
      rw [ler_escrever_outro e p f _ hpf, hf]
    refine ⟨rf, h1, by simp [hpf], ?_⟩
    simp [adicionarFilho, hp, h1]

/-- Every field of every object after `adicionarFilho` on two live objects. -/
theorem ler_adicionarFilho (e e1 : Estado) (p f : Nat) (rp rf : Pessoa)
    (hp : ler e p = some rp) (hf : ler e f = some rf)
    (h : adicionarFilho e (some p) (some f) = some e1) (a : Nat) :
    ler e1 a = (ler e a).map (fun r =>
      { r with filhos := if a = p then r.filhos ++ [some f] else r.filhos,
               pai := if a = f then some p else r.pai }) := by
  obtain ⟨rf1, h1, h2, h3⟩ := adicionarFilho_vivos e p f rp rf hp hf
  rw [h3] at h
  injection h with h
  subst h
  have hlp := ler_lt e p rp hp
  have hlf := ler_lt e f rf hf
  by_cases haf : a = f
  · subst haf
    rw [ler_escrever_mesmo _ a _ (by rw [length_escrever]; exact hlf), h2, hf]
    by_cases hpa : p = a
    · subst hpa
      simp [hp] at hf ⊢
      subst hf
      simp
    · have : a ≠ p := fun h => hpa h.symm
      simp [hpa, this]
  · rw [ler_escrever_outro _ f a _ (fun h => haf h.symm)]
    by_cases hap : a = p
    · subst hap
      rw [ler_escrever_mesmo e a _ hlp, hp]
      simp [haf]
    · rw [ler_escrever_outro e p a _ (fun h => hap h.symm)]
      cases ler e a <;> simp [haf, hap]

/-! ## Claims on the tree builder -/

/-- C5: for every store and every two live objects `p` and `f`, `adicionarFilho(p, f)`
returns, leaves the child sequence of `p` equal to the old one with `f` appended as its
last element (length one more), and leaves the parent reference of `f` equal to `p`. -/
theorem C5_adicionarFilho_appends (e : Estado) (p f : Nat) (rp rf : Pessoa)
    (hp : ler e p = some rp) (hf : ler e f = some rf) :
    ∃ e1, adicionarFilho e (some p) (some f) = some e1 ∧
      (∃ rp1, ler e1 p = some rp1 ∧ rp1.filhos = rp.filhos ++ [some f] ∧
        rp1.filhos.length = rp.filhos.length + 1 ∧ rp1.filhos.getLast? = some (some f)) ∧
      (∃ rf1, ler e1 f = some rf1 ∧ rf1.pai = some p) := by
  obtain ⟨rf1, _, _, h3⟩ := adicionarFilho_vivos e p f rp rf hp hf
  refine ⟨_, h3, ?_, ?_⟩
  · rw [ler_adicionarFilho e _ p f rp rf hp hf h3 p, hp]
    exact ⟨_, rfl, by simp, by simp, by simp⟩
  · rw [ler_adicionarFilho e _ p f rp rf hp hf h3 f, hf]
    exact ⟨_, rfl, by simp⟩

/-- C5 at the store of `main`: attaching the person at address 2 to the one at 1. -/
theorem C5_adicionarFilho_appends_witness :
    ∃ e1, adicionarFilho estadoExemplo (some 1) (some 2) = some e1 ∧
      (∃ rp1, ler e1 1 = some rp1 ∧
        rp1.filhos = (⟨"Pai", "1970-06-15", 'M', some 0, [some 3, some 4], none⟩ : Pessoa).filhos
          ++ [some 2] ∧
        rp1.filhos.length =
          (⟨"Pai", "1970-06-15", 'M', some 0, [some 3, some 4], none⟩ : Pessoa).filhos.length + 1 ∧
        rp1.filhos.getLast? = some (some 2)) ∧
      (∃ rf1, ler e1 2 = some rf1 ∧ rf1.pai = some 1) :=
  C5_adicionarFilho_appends estadoExemplo 1 2
    ⟨"Pai", "1970-06-15", 'M', some 0, [some 3, some 4], none⟩
    ⟨"Tia", "1972-09-20", 'F', some 0, [], none⟩ (by decide) (by decide)

/-- C6: with a null parent, a null child, or both, `adicionarFilho` returns and the store
it leaves is the store it was given: every object, live or not, keeps all its members. -/
theorem C6_adicionarFilho_null (e : Estado) (q : Ptr) :
    adicionarFilho e none q = some e ∧ adicionarFilho e q none = some e ∧
      adicionarFilho e none none = some e ∧
      (∀ e1, adicionarFilho e none q = some e1 ∨ adicionarFilho e q none = some e1 →
        ∀ a, ler e1 a = ler e a) := by
  have h1 : adicionarFilho e none q = some e := by cases q <;> rfl
  have h2 : adicionarFilho e q none = some e := by cases q <;> rfl
  refine ⟨h1, h2, rfl, ?_⟩
  intro e1 h a
  rw [h1, h2] at h
  rcases h with h | h <;> · injection h with h; rw [h]

/-- The object `criarPessoa` builds, for all arguments: it sits at a fresh address, has
the given name, birth date, gender and `familiaOrigem`, an empty child sequence, and the
parent reference the storage happened to hold; the other objects are untouched. -/
theorem criarPessoa_campos (e : Estado) (lixo : Indeterminado) (nome data : String)
    (genero : Char) (fam : Ptr) :
    (criarPessoa e lixo nome data genero fam).2 = some e.length ∧
      ler e e.length = none ∧
      ler (criarPessoa e lixo nome data genero fam).1 e.length
        = some ⟨nome, data, genero, lixo.pai, [], fam⟩ ∧
      (∀ a, a ≠ e.length → ler (criarPessoa e lixo nome data genero fam).1 a = ler e a) := by
  refine ⟨rfl, by simp [ler], by simp [ler, criarPessoa], ?_⟩
  intro a ha
  simp only [ler, criarPessoa]
  by_cases hl : a < e.length
  · rw [List.getElem?_append_left hl]
  · rw [List.getElem?_eq_none (by simp; omega), List.getElem?_eq_none (by omega)]

/-- C7 (the code at the failing input): `criarPessoa("Avô", "1945-01-01", 'M', nullptr)`
on storage whose `pai` slot holds the address 7 returns a person with the three fields
given and no children, whose parent reference is 7 and not null. -/
theorem C7_criarPessoa_pai_not_null :
    (criarPessoa [] ⟨'M', some 7, none⟩ "Avô" "1945-01-01" 'M' none).2 = some 0 ∧
      ler (criarPessoa [] ⟨'M', some 7, none⟩ "Avô" "1945-01-01" 'M' none).1 0
        = some ⟨"Avô", "1945-01-01", 'M', some 7, [], none⟩ ∧
      (ler (criarPessoa [] ⟨'M', some 7, none⟩ "Avô" "1945-01-01" 'M' none).1 0).map Pessoa.pai
        ≠ some none := by
  decide

/-- Objects stay alive across `adicionarFilho`. -/
theorem vivo_adicionarFilho (e e1 : Estado) (p f : Nat) (rp rf : Pessoa)
    (hp : ler e p = some rp) (hf : ler e f = some rf)
    (h : adicionarFilho e (some p) (some f) = some e1) (a : Nat) :
    (ler e1 a).isSome = (ler e a).isSome := by
  rw [ler_adicionarFilho e e1 p f rp rf hp hf h a]
  cases ler e a <;> rfl

theorem adicionarFilhos_filhos :
    ∀ (ds : List Nat) (e : Estado) (p : Nat) (rp : Pessoa), ler e p = some rp →
      (∀ d ∈ ds, (ler e d).isSome = true) →
      ∃ e1, adicionarFilhos e p ds = some e1 ∧
        ∃ rp1, ler e1 p = some rp1 ∧ rp1.filhos = rp.filhos ++ ds.map some
  | [], e, p, rp, hp, _ => ⟨e, rfl, rp, hp, by simp⟩
  | d :: ds, e, p, rp, hp, hds => by
    have hd := hds d (by simp)
    obtain ⟨rd, hrd⟩ := Option.isSome_iff_exists.mp hd
    obtain ⟨_, _, _, h3⟩ := adicionarFilho_vivos e p d rp rd hp hrd
    have hler := ler_adicionarFilho e _ p d rp rd hp hrd h3
    have hp1 := hler p
    rw [hp] at hp1
    obtain ⟨e2, he2, rp2, hrp2, hf2⟩ := adicionarFilhos_filhos ds _ p _ hp1 (by
      intro x hx
      rw [vivo_adicionarFilho e _ p d rp rd hp hrd h3 x]
      exact hds x (by simp [hx]))
    refine ⟨e2, ?_, rp2, hrp2, ?_⟩
    · simp only [adicionarFilhos, h3, he2]
    · rw [hf2]
      simp

/-- C10: for every live person `p` with child sequence `cs` and every list `ds` of
addresses of live persons, the calls `adicionarFilho(p, d1)`, ..., `adicionarFilho(p, dn)`
in that order all return and leave the child sequence of `p` equal to `cs ++ ds`. -/
theorem C10_insertion_order (e : Estado) (p : Nat) (rp : Pessoa) (ds : List Nat)
    (hp : ler e p = some rp) (hds : ∀ d ∈ ds, (ler e d).isSome = true) :
    ∃ e1, adicionarFilhos e p ds = some e1 ∧
      ∃ rp1, ler e1 p = some rp1 ∧ rp1.filhos = rp.filhos ++ ds.map some :=
  adicionarFilhos_filhos ds e p rp hp hds

/-- C10 at the store of `main`: attaching 2, 3 and 2 again, in that order, to 1. -/
theorem C10_insertion_order_witness :
    ∃ e1, adicionarFilhos estadoExemplo 1 [2, 3, 2] = some e1 ∧
      ∃ rp1, ler e1 1 = some rp1 ∧
        rp1.filhos =
          (⟨"Pai", "1970-06-15", 'M', some 0, [some 3, some 4], none⟩ : Pessoa).filhos
            ++ [2, 3, 2].map some :=
  C10_insertion_order estadoExemplo 1 ⟨"Pai", "1970-06-15", 'M', some 0, [some 3, some 4], none⟩
    [2, 3, 2] (by decide) (by decide)

/-! ## Teardown of a represented tree -/

mutual
theorem representa_mesma_leitura (e e1 : Estado) :
    ∀ (t : ArvoreMem) (q : Ptr), (∀ a ∈ t.enderecos, ler e1 a = ler e a) →
      Representa e t q → Representa e1 t q
  | .no (a, r) ts, q, hl, h => by
    simp only [Representa] at h ⊢
    obtain ⟨hq, p, hp, hr, hts⟩ := h
    refine ⟨hq, p, ?_, hr, ?_⟩
    · rw [hl a (by simp [ArvoreMem.enderecos, Arvore.preOrdem]), hp]
    · refine representaLista_mesma_leitura e e1 ts p.filhos ?_ hts
      intro b hb
      exact hl b (by
        simp only [ArvoreMem.enderecos, Arvore.preOrdem, List.map_cons, List.mem_cons]
        exact Or.inr hb)
theorem representaLista_mesma_leitura (e e1 : Estado) :
    ∀ (ts : List ArvoreMem) (qs : List Ptr),
      (∀ a ∈ (preOrdemLista ts).map Prod.fst, ler e1 a = ler e a) →
      RepresentaLista e ts qs → RepresentaLista e1 ts qs
  | [], _, _, h => by simpa [RepresentaLista] using h
  | _ :: _, [], _, h => by simp [RepresentaLista] at h
  | t :: ts, q :: qs, hl, h => by
    simp only [RepresentaLista] at h ⊢
    refine ⟨representa_mesma_leitura e e1 t q ?_ h.1,
      representaLista_mesma_leitura e e1 ts qs ?_ h.2⟩
    · intro a ha
      exact hl a (by
        simp only [preOrdemLista, List.map_append, List.mem_append]
        exact Or.inl ha)
    · intro a ha
      exact hl a (by
        simp only [preOrdemLista, List.map_append, List.mem_append]
        exact Or.inr ha)
end

mutual
theorem Arvore.posOrdem_perm {α : Type} : ∀ t : Arvore α, t.posOrdem.Perm t.preOrdem
  | .no r ts => by
    simp only [Arvore.posOrdem, Arvore.preOrdem]
    exact (List.perm_append_comm).trans ((posOrdemLista_perm ts).cons r)
theorem posOrdemLista_perm {α : Type} :
    ∀ ts : List (Arvore α), (posOrdemLista ts).Perm (preOrdemLista ts)
  | [] => by simp [posOrdemLista, preOrdemLista]
  | t :: ts => by
    simp only [posOrdemLista, preOrdemLista]
    exact (Arvore.posOrdem_perm t).append (posOrdemLista_perm ts)
end

mutual
theorem destruirArvore_representa :
    ∀ (t : ArvoreMem) (e : Estado) (q : Ptr), Representa e t q → t.enderecos.Nodup →
      ∃ e1, (∀ n, t.altura ≤ n → destruirArvore n e q = some (e1, t.posOrdem.map Prod.fst)) ∧
        ∀ b, ler e1 b = if b ∈ t.enderecos then none else ler e b
  | .no (a, r) ts, e, q, h, hd => by
    simp only [Representa] at h
    obtain ⟨rfl, p, hp, _, hts⟩ := h
    simp only [ArvoreMem.enderecos, Arvore.preOrdem, List.map_cons, List.nodup_cons] at hd
    obtain ⟨e1, hrun, hler⟩ := lacoDestruir_representa ts e p.filhos hts hd.2
    have ha1 : ler e1 a = some p := by rw [hler a, if_neg hd.1, hp]
    refine ⟨liberar e1 a, ?_, ?_⟩
    · intro n hn
      cases n with
      | zero => simp [Arvore.altura] at hn
      | succ n =>
        simp only [Arvore.altura, Nat.add_le_add_iff_right] at hn
        simp [destruirArvore, hp, hrun n hn, ha1, Arvore.posOrdem]
    · intro b
      rw [ler_liberar, hler b]
      simp only [ArvoreMem.enderecos, Arvore.preOrdem, List.map_cons, List.mem_cons]
      by_cases hab : a = b
      · simp [hab]
      · have hba : ¬ b = a := fun h => hab h.symm
        rw [if_neg hab]
        simp only [hba, false_or]
theorem lacoDestruir_representa :
    ∀ (ts : List ArvoreMem) (e : Estado) (qs : List Ptr), RepresentaLista e ts qs →
      ((preOrdemLista ts).map Prod.fst).Nodup →
      ∃ e1, (∀ n, alturaLista ts ≤ n →
          lacoDestruir (destruirArvore n) e qs = some (e1, (posOrdemLista ts).map Prod.fst)) ∧
        ∀ b, ler e1 b = if b ∈ (preOrdemLista ts).map Prod.fst then none else ler e b
  | [], e, qs, h, _ => by
    simp only [RepresentaLista] at h
    subst h
    exact ⟨e, by simp [lacoDestruir, posOrdemLista], by simp [preOrdemLista]⟩
  | _ :: _, _, [], h, _ => by simp [RepresentaLista] at h
  | t :: ts, e, q :: qs, h, hd => by
    simp only [RepresentaLista] at h
    simp only [preOrdemLista, List.map_append] at hd
    rw [List.nodup_append] at hd
    obtain ⟨hd1, hd2, hdis⟩ := hd
    obtain ⟨e1, hrun1, hler1⟩ := destruirArvore_representa t e q h.1 hd1
    have hrep : RepresentaLista e1 ts qs := by
      refine representaLista_mesma_leitura e e1 ts qs ?_ h.2
      intro b hb
      rw [hler1 b, if_neg]
      intro hb1
      exact hdis hb1 hb
    obtain ⟨e2, hrun2, hler2⟩ := lacoDestruir_representa ts e1 qs hrep hd2
    refine ⟨e2, ?_, ?_⟩
    · intro n hn
      simp only [alturaLista, max_le_iff] at hn
      simp [lacoDestruir, hrun1 n hn.1, hrun2 n hn.2, posOrdemLista]
    · intro b
      rw [hler2 b, hler1 b]
      simp only [preOrdemLista, List.map_append, List.mem_append, ArvoreMem.enderecos]
      by_cases h1 : b ∈ List.map Prod.fst t.preOrdem <;>
        by_cases h2 : b ∈ List.map Prod.fst (preOrdemLista ts) <;> simp [h1, h2]
end

theorem destruirArvore_nulo (n : Nat) (e : Estado) : destruirArvore n e none = some (e, []) := by
  cases n <;> simp [destruirArvore]

/-- C8: on every well-formed finite tree (the addresses of its nodes are pairwise
distinct) `destruirArvore` returns for every sufficient recursion budget, and the
addresses it deletes are the post-order listing of the tree: each node exactly once,
every child subtree before its parent, the root last; the number of deletions is the
number of persons; afterwards exactly the nodes of the tree are dead. For a null root it
deletes nothing and leaves the store as it is. -/
theorem C8_destruirArvore_postorder (e : Estado) (t : ArvoreMem) (raiz : Ptr)
    (h : Representa e t raiz) (hd : t.enderecos.Nodup) :
    (∀ n e0, destruirArvore n e0 none = some (e0, [])) ∧
    ∃ e1, (∀ k, destruirArvore (t.altura + k) e raiz = some (e1, t.posOrdem.map Prod.fst)) ∧
      (t.posOrdem.map Prod.fst).Perm t.enderecos ∧
      (t.posOrdem.map Prod.fst).Nodup ∧
      (t.posOrdem.map Prod.fst).length = t.tamanho ∧
      (∀ a ∈ t.enderecos, ler e1 a = none) ∧
      (∀ a, a ∉ t.enderecos → ler e1 a = ler e a) := by
  obtain ⟨e1, hrun, hler⟩ := destruirArvore_representa t e raiz h hd
  have hperm : (t.posOrdem.map Prod.fst).Perm t.enderecos :=
    (Arvore.posOrdem_perm t).map Prod.fst
  refine ⟨destruirArvore_nulo, e1, fun k => hrun _ (Nat.le_add_right _ _), hperm,
    hperm.nodup_iff.mpr hd, ?_, ?_, ?_⟩
  · rw [hperm.length_eq]
    simp [ArvoreMem.enderecos, Arvore.tamanho]
  · intro a ha
    rw [hler a, if_pos ha]
  · intro a ha
    rw [hler a, if_neg ha]

/-- C8 at the tree of `main`: the release order is 3, 4, 1, 2, 0. -/
theorem C8_destruirArvore_postorder_witness :
    (Representa estadoExemplo arvoreExemplo (some 0) ∧ arvoreExemplo.enderecos.Nodup) ∧
    ((∀ n e0, destruirArvore n e0 none = some (e0, [])) ∧
    ∃ e1, (∀ k, destruirArvore (arvoreExemplo.altura + k) estadoExemplo (some 0)
          = some (e1, arvoreExemplo.posOrdem.map Prod.fst)) ∧
      (arvoreExemplo.posOrdem.map Prod.fst).Perm arvoreExemplo.enderecos ∧
      (arvoreExemplo.posOrdem.map Prod.fst).Nodup ∧
      (arvoreExemplo.posOrdem.map Prod.fst).length = arvoreExemplo.tamanho ∧
      (∀ a ∈ arvoreExemplo.enderecos, ler e1 a = none) ∧
      (∀ a, a ∉ arvoreExemplo.enderecos → ler e1 a = ler estadoExemplo a)) :=
  ⟨⟨representa_exemplo, by decide⟩,
    C8_destruirArvore_postorder estadoExemplo arvoreExemplo (some 0) representa_exemplo
      (by decide)⟩

/-! ## Reachable stores and the number of parents -/

theorem alcancavel_estadoDoisPais : Alcancavel estadoDoisPais := by
  have h0 := Alcancavel.criar [] ⟨'x', none, none⟩ "A" "1" 'F' none Alcancavel.vazio
  have h1 := Alcancavel.criar _ ⟨'x', none, none⟩ "B" "2" 'M' none h0
  have h2 := Alcancavel.criar _ ⟨'x', none, none⟩ "C" "3" 'F' none h1
  have h3 := Alcancavel.adicionar _
    [some ⟨"A", "1", 'F', none, [some 2], none⟩, some ⟨"B", "2", 'M', none, [], none⟩,
      some ⟨"C", "3", 'F', some 0, [], none⟩] (some 0) (some 2) h2 (by decide)
  exact Alcancavel.adicionar _ _ (some 1) (some 2) h3 (by decide)

theorem alcancavel_estadoDuasVezes : Alcancavel estadoDuasVezes := by
  have h0 := Alcancavel.criar [] ⟨'x', none, none⟩ "A" "1" 'F' none Alcancavel.vazio
  have h1 := Alcancavel.criar _ ⟨'x', none, none⟩ "B" "2" 'M' none h0
  have h2 := Alcancavel.adicionar _
    [some ⟨"A", "1", 'F', none, [some 1], none⟩, some ⟨"B", "2", 'M', some 0, [], none⟩]
    (some 0) (some 1) h1 (by decide)
  exact Alcancavel.adicionar _ _ (some 0) (some 1) h2 (by decide)

/-- C9 fails as stated: after `adicionarFilho(0, 2); adicionarFilho(1, 2)` the person at
2 is in the child sequences of two persons, and after `adicionarFilho(0, 1)` twice the
person at 1 is twice in the child sequence of the person at 0; both stores are
reachable by `criarPessoa` and `adicionarFilho` calls alone. -/
theorem C9_counterexample :
    (Alcancavel estadoDoisPais ∧ ¬ NoMaximoUmPai estadoDoisPais) ∧
    (Alcancavel estadoDuasVezes ∧ ¬ NoMaximoUmPai estadoDuasVezes) := by
  refine ⟨⟨alcancavel_estadoDoisPais, fun h => ?_⟩, ⟨alcancavel_estadoDuasVezes, fun h => ?_⟩⟩
  · have := (h 2).1 0 1 ⟨"A", "1", 'F', none, [some 2], none⟩
      ⟨"B", "2", 'M', none, [some 2], none⟩ (by decide) (by decide) (by decide) (by decide)
    exact absurd this (by decide)
  · have := (h 1).2 0 ⟨"A", "1", 'F', none, [some 1, some 1], none⟩ (by decide)
    exact absurd this (by decide)

theorem adicionarFilho_retorna (e e1 : Estado) (p f : Nat)
    (h : adicionarFilho e (some p) (some f) = some e1) :
    ∃ rp rf, ler e p = some rp ∧ ler e f = some rf := by
  cases hp : ler e p with
  | none => simp [adicionarFilho, hp] at h
  | some rp =>
    cases hf : ler e f with
    | none =>
      have hlp := ler_lt e p rp hp
      by_cases hpf : p = f
      · rw [← hpf, hp] at hf
        cases hf
      · simp [adicionarFilho, hp, ler_escrever_outro e p f _ hpf, hf] at h
    | some rf => exact ⟨rp, rf, rfl, rfl⟩

theorem noMaximoUmPai_criar (e : Estado) (lixo : Indeterminado) (nome data : String)
    (genero : Char) (fam : Ptr) (h : NoMaximoUmPai e) :
    NoMaximoUmPai (criarPessoa e lixo nome data genero fam).1 := by
  obtain ⟨_, _, hnovo, hresto⟩ := criarPessoa_campos e lixo nome data genero fam
  have hfil : ∀ a ra, ler (criarPessoa e lixo nome data genero fam).1 a = some ra →
      ra.filhos = [] ∨ ler e a = some ra := by
    intro a ra hra
    by_cases ha : a = e.length
    · subst ha
      rw [hnovo] at hra
      injection hra with hra
      subst hra
      exact Or.inl rfl
    · rw [hresto a ha] at hra
      exact Or.inr hra
  intro c
  refine ⟨?_, ?_⟩
  · intro a b ra rb hra hrb hca hcb
    rcases hfil a ra hra with h1 | h1
    · simp [h1] at hca
    rcases hfil b rb hrb with h2 | h2
    · simp [h2] at hcb
    exact (h c).1 a b ra rb h1 h2 hca hcb
  · intro a ra hra
    rcases hfil a ra hra with h1 | h1
    · simp [h1]
    · exact (h c).2 a ra h1

theorem noMaximoUmPai_adicionar (e e1 : Estado) (p f : Nat) (h : NoMaximoUmPai e)
    (hsem : SemPai e f) (hadd : adicionarFilho e (some p) (some f) = some e1) :
    NoMaximoUmPai e1 := by
  obtain ⟨rp, rf, hp, hf⟩ := adicionarFilho_retorna e e1 p f hadd
  have hler := ler_adicionarFilho e e1 p f rp rf hp hf hadd
  have hfil : ∀ a ra, ler e1 a = some ra → ∃ r0, ler e a = some r0 ∧
      ra.filhos = if a = p then r0.filhos ++ [some f] else r0.filhos := by
    intro a ra hra
    rw [hler a] at hra
    cases h0 : ler e a with
    | none => simp [h0] at hra
    | some r0 =>
      rw [h0] at hra
      simp only [Option.map_some', Option.some.injEq] at hra
      exact ⟨r0, rfl, by rw [← hra]⟩
  have hmem : ∀ c a ra, ler e1 a = some ra → some c ∈ ra.filhos →
      (c = f ∧ a = p) ∨ (c ≠ f ∧ ∃ r0, ler e a = some r0 ∧ some c ∈ r0.filhos) := by
    intro c a ra hra hc
    obtain ⟨r0, h0, hfa⟩ := hfil a ra hra
    rw [hfa] at hc
    by_cases hcf : c = f
    · subst hcf
      left
      refine ⟨rfl, ?_⟩
      by_contra hap
      rw [if_neg hap] at hc
      exact hsem a r0 h0 hc
    · right
      refine ⟨hcf, r0, h0, ?_⟩
      by_cases hap : a = p
      · rw [if_pos hap] at hc
        simpa [hcf] using hc
      · rwa [if_neg hap] at hc
  intro c
  refine ⟨?_, ?_⟩
  · intro a b ra rb hra hrb hca hcb
    rcases hmem c a ra hra hca with ⟨h1, h1p⟩ | ⟨h1, r0a, h0a, hma⟩
    · rcases hmem c b rb hrb hcb with ⟨_, h2p⟩ | ⟨h2, _⟩
      · rw [h1p, h2p]
      · exact absurd h1 h2
    · rcases hmem c b rb hrb hcb with ⟨h2, _⟩ | ⟨_, r0b, h0b, hmb⟩
      · exact absurd h2 h1
      · exact (h c).1 a b r0a r0b h0a h0b hma hmb
  · intro a ra hra
    obtain ⟨r0, h0, hfa⟩ := hfil a ra hra
    rw [hfa]
    by_cases hap : a = p
    · rw [if_pos hap, List.count_append]
      by_cases hcf : c = f
      · subst hcf
        have : r0.filhos.count (some c) = 0 := List.count_eq_zero.mpr (hsem a r0 h0)
        simp [this]
      · have := (h c).2 a r0 h0
        have hne : ¬ f = c := fun hh => hcf hh.symm
        simp [List.count_singleton, hne]
        exact this
    · rw [if_neg hap]
      exact (h c).2 a r0 h0

/-- C9 as amended: in every store reachable from the empty store by calls of
`criarPessoa` and `adicionarFilho` in which no person is attached a second time (the
child occurs in no child sequence when `adicionarFilho` is called with two non-null
pointers), every person occurs in the child sequence of at most one person, and at most
once there. -/
theorem C9_at_most_one_parent (e : Estado) (h : AlcancavelUmaVez e) : NoMaximoUmPai e := by
  induction h with
  | vazio =>
    intro c
    exact ⟨fun a b ra rb hra => by simp [ler] at hra, fun a ra hra => by simp [ler] at hra⟩
  | criar e lixo nome data genero fam _ ih => exact noMaximoUmPai_criar e lixo nome data genero fam ih
  | adicionar e e1 pai filho _ hsem hadd ih =>
    cases pai with
    | none =>
      have : adicionarFilho e none filho = some e := by cases filho <;> rfl
      rw [this] at hadd
      injection hadd with hadd
      rw [← hadd]
      exact ih
    | some p =>
      cases filho with
      | none =>
        have : adicionarFilho e (some p) none = some e := rfl
        rw [this] at hadd
        injection hadd with hadd
        rw [← hadd]
        exact ih
      | some f => exact noMaximoUmPai_adicionar e e1 p f ih (hsem p f rfl rfl) hadd

theorem alcancavelUmaVez_exemplo : AlcancavelUmaVez estadoExemplo := by
  have h0 := AlcancavelUmaVez.criar [] ⟨'x', none, none⟩ "Avô" "1945-01-01" 'M' none
    AlcancavelUmaVez.vazio
  have h1 := AlcancavelUmaVez.criar _ ⟨'x', none, none⟩ "Pai" "1970-06-15" 'M' none h0
  have h2 := AlcancavelUmaVez.criar _ ⟨'x', none, none⟩ "Tia" "1972-09-20" 'F' none h1
  have sem : ∀ (e : Estado) (c : Nat),
      (∀ a, a < e.length → ∀ ra, ler e a = some ra → some c ∉ ra.filhos) → SemPai e c :=
    fun e c hh a ra hra => hh a (ler_lt e a ra hra) ra hra
  have h3 := AlcancavelUmaVez.adicionar _
    [some ⟨"Avô", "1945-01-01", 'M', none, [some 1], none⟩,
     some ⟨"Pai", "1970-06-15", 'M', some 0, [], none⟩,
     some ⟨"Tia", "1972-09-20", 'F', none, [], none⟩] (some 0) (some 1) h2
    (by
      intro p c _ hc
      injection hc with hc
      subst hc
      apply sem
      intro a ha ra hra
      have : a = 0 ∨ a = 1 ∨ a = 2 := by simp [criarPessoa] at ha; omega
      rcases this with rfl | rfl | rfl <;>
        · simp [ler, criarPessoa] at hra
          simp [← hra])
    (by decide)
  have h4 := AlcancavelUmaVez.adicionar _
    [some ⟨"Avô", "1945-01-01", 'M', none, [some 1, some 2], none⟩,
     some ⟨"Pai", "1970-06-15", 'M', some 0, [], none⟩,
     some ⟨"Tia", "1972-09-20", 'F', some 0, [], none⟩] (some 0) (some 2) h3
    (by
      intro p c _ hc
      injection hc with hc
      subst hc
      apply sem
      intro a ha ra hra
      have : a = 0 ∨ a = 1 ∨ a = 2 := by simp at ha; omega
      rcases this with rfl | rfl | rfl <;>
        · simp [ler] at hra
          simp [← hra])
    (by decide)
  have h5 := AlcancavelUmaVez.criar _ ⟨'x', none, none⟩ "Filho" "1995-03-10" 'M' none h4
  have h6 := AlcancavelUmaVez.criar _ ⟨'x', none, none⟩ "Filha" "1998-11-05" 'F' none h5
  have h7 := AlcancavelUmaVez.adicionar _
    [some ⟨"Avô", "1945-01-01", 'M', none, [some 1, some 2], none⟩,
     some ⟨"Pai", "1970-06-15", 'M', some 0, [some 3], none⟩,
     some ⟨"Tia", "1972-09-20", 'F', some 0, [], none⟩,
     some ⟨"Filho", "1995-03-10", 'M', some 1, [], none⟩,
     some ⟨"Filha", "1998-11-05", 'F', none, [], none⟩] (some 1) (some 3) h6
    (by
      intro p c _ hc
      injection hc with hc
      subst hc
      apply sem
      intro a ha ra hra
      have : a = 0 ∨ a = 1 ∨ a = 2 ∨ a = 3 ∨ a = 4 := by simp [criarPessoa] at ha; omega
      rcases this with rfl | rfl | rfl | rfl | rfl <;>
        · simp [ler, criarPessoa] at hra
          simp [← hra])
    (by decide)
  exact AlcancavelUmaVez.adicionar _ _ (some 1) (some 4) h7
    (by
      intro p c _ hc
      injection hc with hc
      subst hc
      apply sem
      intro a ha ra hra
      have : a = 0 ∨ a = 1 ∨ a = 2 ∨ a = 3 ∨ a = 4 := by simp at ha; omega
      rcases this with rfl | rfl | rfl | rfl | rfl <;>
        · simp [ler] at hra
          simp [← hra])
    (by decide)

/-- C9 as amended, at the store that `main` builds. -/
theorem C9_at_most_one_parent_witness :
    AlcancavelUmaVez estadoExemplo ∧ NoMaximoUmPai estadoExemplo :=
  ⟨alcancavelUmaVez_exemplo, C9_at_most_one_parent estadoExemplo alcancavelUmaVez_exemplo⟩

/-! ## Reading a rendering back: lines -/

/-- A separator that occurs in neither left part splits two equal texts the same way. -/
theorem separa_no_primeiro {α : Type} (c : α) :
    ∀ (x y r s : List α), c ∉ x → c ∉ y → x ++ c :: r = y ++ c :: s → x = y ∧ r = s
  | [], [], r, s, _, _, h => by simpa using h
  | [], b :: y, r, s, _, hy, h => by
    simp only [List.nil_append, List.cons_append, List.cons.injEq] at h
    exact absurd h.1 (fun hc => hy (by simp [hc]))
  | a :: x, [], r, s, hx, _, h => by
    simp only [List.nil_append, List.cons_append, List.cons.injEq] at h
    exact absurd h.1 (fun hc => hx (by simp [hc]))
  | a :: x, b :: y, r, s, hx, hy, h => by
    simp only [List.cons_append, List.cons.injEq] at h
    have := separa_no_primeiro c x y r s (fun hc => hx (by simp [hc]))
      (fun hc => hy (by simp [hc])) h.2
    exact ⟨by rw [h.1, this.1], this.2⟩

/-- Two texts made of a part without the separator, followed by nothing or by a part that
starts with the separator, split the same way. -/
theorem separa_na_quebra {α : Type} (c : α) (x y r s : List α) (hx : c ∉ x) (hy : c ∉ y)
    (hr : r = [] ∨ r.head? = some c) (hs : s = [] ∨ s.head? = some c)
    (h : x ++ r = y ++ s) : x = y ∧ r = s := by
  cases r with
  | nil =>
    cases s with
    | nil => simpa using h
    | cons d s =>
      have hd : d = c := by simpa using hs
      subst hd
      rw [List.append_nil] at h
      exact absurd (by rw [h]; simp) hx
  | cons d r =>
    have hd : d = c := by simpa using hr
    subst hd
    cases s with
    | nil =>
      rw [List.append_nil] at h
      exact absurd (by rw [← h]; simp) hy
    | cons d2 s =>
      have hd2 : d2 = d := by simpa using hs
      subst hd2
      have := separa_no_primeiro d2 x y r s hx hy h
      exact ⟨this.1, by rw [this.2]⟩

theorem segmentos_nil : segmentos [] = "" := by
  simp [segmentos, String.join]

theorem segmentos_nil_data : (segmentos []).data = [] := by
  rw [segmentos_nil]

theorem segmentos_snoc (anc : List Bool) (u : Bool) :
    segmentos (anc ++ [u]) = segmentos anc ++ segmento u := by
  simp [segmentos, string_join_append]

theorem segmentos_cons (anc : List Bool) (u : Bool) :
    (segmentos (u :: anc)).data = (segmento u).data ++ (segmentos anc).data := by
  simp [segmentos]

theorem segmento_data (u : Bool) :
    (segmento u).data = (if u then ' ' else '│') :: [' ', ' ', ' '] := by
  cases u <;> rfl

theorem glifo_data (u : Bool) :
    (glifo u).data = (if u then '└' else '├') :: ['─', '─', ' '] := by
  cases u <;> rfl

theorem newline_nao_em_segmentos (anc : List Bool) : '\n' ∉ (segmentos anc).data := by
  induction anc with
  | nil => simp [segmentos_nil_data]
  | cons u anc ih =>
    rw [segmentos_cons, segmento_data]
    cases u <;> simp [ih]

/-- The prefix and the glyph can be read off the front of a line. -/
theorem prefixo_do_texto :
    ∀ (anc anc2 : List Bool) (u u2 : Bool) (x x2 : List Char),
      (segmentos anc).data ++ ((glifo u).data ++ x)
        = (segmentos anc2).data ++ ((glifo u2).data ++ x2) →
      anc = anc2 ∧ u = u2 ∧ x = x2
  | [], [], u, u2, x, x2, h => by
    simp only [segmentos_nil_data, List.nil_append, glifo_data,
      List.cons_append, List.cons.injEq] at h
    refine ⟨rfl, ?_, by simpa using h.2⟩
    cases u <;> cases u2 <;> simp_all
  | [], v :: anc2, u, u2, x, x2, h => by
    rw [segmentos_cons, segmento_data, glifo_data] at h
    simp only [segmentos_nil_data, List.nil_append, List.cons_append,
      List.cons.injEq] at h
    cases u <;> cases v <;> simp at h
  | v :: anc, [], u, u2, x, x2, h => by
    rw [segmentos_cons, segmento_data, glifo_data (u2)] at h
    simp only [segmentos_nil_data, List.nil_append, List.cons_append,
      List.cons.injEq] at h
    cases u2 <;> cases v <;> simp at h
  | v :: anc, v2 :: anc2, u, u2, x, x2, h => by
    rw [segmentos_cons, segmentos_cons, segmento_data, segmento_data] at h
    simp only [List.cons_append, List.cons.injEq, true_and, List.nil_append] at h
    have ih := prefixo_do_texto anc anc2 u u2 x x2 h.2
    refine ⟨?_, ih.2⟩
    rw [ih.1]
    congr 1
    cases v <;> cases v2 <;> simp_all

/-! ## Reading a rendering back: the outline -/

theorem map_inj_nos_membros {α β : Type} (f : α → β) :
    ∀ (l l2 : List α), (∀ x ∈ l, ∀ y ∈ l2, f x = f y → x = y) → l.map f = l2.map f → l = l2
  | [], [], _, _ => rfl
  | [], _ :: _, _, h => by simp at h
  | _ :: _, [], _, h => by simp at h
  | a :: l, b :: l2, hinj, h => by
    simp only [List.map_cons, List.cons.injEq] at h
    rw [hinj a (by simp) b (by simp) h.1,
      map_inj_nos_membros f l l2
        (fun x hx y hy => hinj x (by simp [hx]) y (by simp [hy])) h.2]

mutual
theorem desenhaRec_esboco :
    ∀ (t : Arvore Registro) (anc : List Bool) (u : Bool),
      desenhaRec t (segmentos anc) u = (esbocoRec t anc u).map Entrada.linha
  | .no r ts, anc, u => by
    have h := desenhaFilhos_esboco ts (anc ++ [u])
    rw [segmentos_snoc] at h
    simp only [desenhaRec, esbocoRec, List.map_cons, ← h]
    rfl
theorem desenhaFilhos_esboco :
    ∀ (ts : List (Arvore Registro)) (anc : List Bool),
      desenhaFilhos ts (segmentos anc) = (esbocoFilhos ts anc).map Entrada.linha
  | [], _ => by simp [desenhaFilhos, esbocoFilhos]
  | t :: ts, anc => by
    simp only [desenhaFilhos, esbocoFilhos, List.map_append, desenhaRec_esboco t anc,
      desenhaFilhos_esboco ts anc]
end

mutual
theorem esbocoRec_registros :
    ∀ (t : Arvore Registro) (anc : List Bool) (u : Bool),
      (esbocoRec t anc u).map (fun x => x.2.2) = t.preOrdem
  | .no r ts, anc, u => by
    simp [esbocoRec, Arvore.preOrdem, esbocoFilhos_registros ts]
theorem esbocoFilhos_registros :
    ∀ (ts : List (Arvore Registro)) (anc : List Bool),
      (esbocoFilhos ts anc).map (fun x => x.2.2) = preOrdemLista ts
  | [], _ => by simp [esbocoFilhos, preOrdemLista]
  | t :: ts, anc => by
    simp [esbocoFilhos, preOrdemLista, esbocoRec_registros t, esbocoFilhos_registros ts]
end

/-! ## Reading a rendering back: the tree from its outline -/

theorem head_esbocoFilhos (ts : List (Arvore Registro)) (anc : List Bool)
    (rest : List Entrada) (h : ∀ x ∈ rest.head?, x.1.length < anc.length) :
    ∀ x ∈ (esbocoFilhos ts anc ++ rest).head?, x.1.length ≤ anc.length := by
  cases ts with
  | nil =>
    intro x hx
    exact Nat.le_of_lt (h x (by simpa [esbocoFilhos] using hx))
  | cons t ts =>
    cases t with
    | no r cs =>
      intro x hx
      simp [esbocoFilhos, esbocoRec] at hx
      rw [← hx]

mutual
theorem esbocoRec_inj :
    ∀ (t t2 : Arvore Registro) (anc : List Bool) (u u2 : Bool) (rest rest2 : List Entrada),
      (∀ x ∈ rest.head?, x.1.length ≤ anc.length) →
      (∀ x ∈ rest2.head?, x.1.length ≤ anc.length) →
      esbocoRec t anc u ++ rest = esbocoRec t2 anc u2 ++ rest2 → t = t2 ∧ rest = rest2
  | .no r ts, .no r2 ts2, anc, u, u2, rest, rest2, h1, h2, heq => by
    simp only [esbocoRec, List.cons_append, List.cons.injEq, Prod.mk.injEq, true_and] at heq
    obtain ⟨⟨hu, hr⟩, hresto⟩ := heq
    subst hu hr
    have := esbocoFilhos_inj ts ts2 (anc ++ [u]) rest rest2
      (fun x hx => by have := h1 x hx; simp; omega)
      (fun x hx => by have := h2 x hx; simp; omega) hresto
    exact ⟨by rw [this.1], this.2⟩
theorem esbocoFilhos_inj :
    ∀ (ts ts2 : List (Arvore Registro)) (anc : List Bool) (rest rest2 : List Entrada),
      (∀ x ∈ rest.head?, x.1.length < anc.length) →
      (∀ x ∈ rest2.head?, x.1.length < anc.length) →
      esbocoFilhos ts anc ++ rest = esbocoFilhos ts2 anc ++ rest2 → ts = ts2 ∧ rest = rest2
  | [], [], _, _, _, _, _, heq => by simpa [esbocoFilhos] using heq
  | [], (.no r2 cs2) :: ts2, anc, rest, rest2, h1, _, heq => by
    simp only [esbocoFilhos, esbocoRec, List.nil_append, List.cons_append] at heq
    have := h1 (anc, ts2.isEmpty, r2) (by rw [heq]; simp)
    simp at this
  | (.no r cs) :: ts, [], anc, rest, rest2, _, h2, heq => by
    simp only [esbocoFilhos, esbocoRec, List.nil_append, List.cons_append] at heq
    have := h2 (anc, ts.isEmpty, r) (by rw [← heq]; simp)
    simp at this
  | t :: ts, t2 :: ts2, anc, rest, rest2, h1, h2, heq => by
    simp only [esbocoFilhos, List.append_assoc] at heq
    have ha := esbocoRec_inj t t2 anc ts.isEmpty ts2.isEmpty _ _
      (head_esbocoFilhos ts anc rest h1) (head_esbocoFilhos ts2 anc rest2 h2) heq
    have hb := esbocoFilhos_inj ts ts2 anc rest rest2 h1 h2 ha.2
    exact ⟨by rw [ha.1, hb.1], hb.2⟩
end

/-! ## Reading a rendering back: the lines, from the end of the text -/

theorem Peca.texto_reverse (w : Peca) :
    w.texto.reverse
      = '\n' :: ')' :: w.2.2 :: ' ' :: ',' :: (w.2.1.reverse ++ '(' :: ' ' :: w.1.reverse) := by
  simp [Peca.texto]

theorem inicio_invertido (vs : List Peca) :
    (vs.map (fun w => w.texto.reverse)).flatten = [] ∨
      ((vs.map (fun w => w.texto.reverse)).flatten).head? = some '\n' := by
  cases vs with
  | nil => exact Or.inl rfl
  | cons w vs => exact Or.inr (by simp [Peca.texto_reverse])

/-- Read from the end, a text determines its pieces, when the part before the separator
has no newline and the birth date no opening parenthesis. -/
theorem pecas_invertidas :
    ∀ (vs vs2 : List Peca), (∀ w ∈ vs, '\n' ∉ w.1 ∧ '(' ∉ w.2.1) →
      (∀ w ∈ vs2, '\n' ∉ w.1 ∧ '(' ∉ w.2.1) →
      (vs.map (fun w => w.texto.reverse)).flatten
        = (vs2.map (fun w => w.texto.reverse)).flatten → vs = vs2
  | [], [], _, _, _ => rfl
  | [], w :: vs2, _, _, h => by simp [Peca.texto_reverse] at h
  | w :: vs, [], _, _, h => by simp [Peca.texto_reverse] at h
  | w :: vs, w2 :: vs2, hc, hc2, h => by
    simp only [List.map_cons, List.flatten_cons] at h
    rw [Peca.texto_reverse w, Peca.texto_reverse w2] at h
    simp only [List.cons_append, List.append_assoc, List.cons.injEq, true_and] at h
    obtain ⟨hg, hresto⟩ := h
    have hw := hc w (by simp)
    have hw2 := hc2 w2 (by simp)
    have h1 := separa_no_primeiro '(' w.2.1.reverse w2.2.1.reverse _ _ (by simpa using hw.2)
      (by simpa using hw2.2) hresto
    have h2 := h1.2
    simp only [List.cons.injEq, true_and] at h2
    have h3 := separa_na_quebra '\n' w.1.reverse w2.1.reverse _ _ (by simpa using hw.1)
      (by simpa using hw2.1) (inicio_invertido vs) (inicio_invertido vs2) h2
    have ih := pecas_invertidas vs vs2 (fun v hv => hc v (by simp [hv]))
      (fun v hv => hc2 v (by simp [hv])) h3.2
    have hd : w.2.1 = w2.2.1 := List.reverse_injective h1.1
    have hx : w.1 = w2.1 := List.reverse_injective h3.1
    obtain ⟨a, b, c⟩ := w
    obtain ⟨a2, b2, c2⟩ := w2
    simp only at hg hd hx
    rw [hg, hd, hx, ih]

/-- A text determines its pieces, when the part before the separator has no newline and
the birth date no opening parenthesis. -/
theorem pecas_do_texto (ws ws2 : List Peca) (hc : ∀ w ∈ ws, '\n' ∉ w.1 ∧ '(' ∉ w.2.1)
    (hc2 : ∀ w ∈ ws2, '\n' ∉ w.1 ∧ '(' ∉ w.2.1)
    (h : (ws.map Peca.texto).flatten = (ws2.map Peca.texto).flatten) : ws = ws2 := by
  apply List.reverse_injective
  apply pecas_invertidas ws.reverse ws2.reverse
    (fun w hw => hc w (List.mem_reverse.mp hw)) (fun w hw => hc2 w (List.mem_reverse.mp hw))
  have := congrArg List.reverse h
  simpa [List.reverse_flatten, List.map_reverse] using this

theorem Entrada.texto_peca_entrada (x : Entrada) : x.linha.texto.data = x.peca.texto := by
  simp [Entrada.linha, Entrada.peca, Peca.texto, Linha.texto]

theorem Registro.texto_peca_raiz (r : Registro) :
    (Linha.texto ⟨"", "", r.nome, r.dataNascimento, r.genero⟩).data = r.peca.texto := by
  simp [Registro.peca, Peca.texto, Linha.texto]

theorem Entrada.peca_limpa (x : Entrada) (h : x.2.2.Limpo) :
    '\n' ∉ x.peca.1 ∧ '(' ∉ x.peca.2.1 := by
  have h1 := newline_nao_em_segmentos x.1
  have h3 : '\n' ∉ (glifo x.2.1).data := by
    rw [glifo_data]
    cases x.2.1 <;> simp
  exact ⟨by simp [Entrada.peca, h1, h3, h.1], h.2⟩

/-- An outline entry is determined by its piece. -/
theorem entrada_da_peca (x y : Entrada) (h : x.peca = y.peca) : x = y := by
  simp only [Entrada.peca, Prod.mk.injEq] at h
  obtain ⟨h1, h2, h3⟩ := h
  obtain ⟨ha, hu, hn⟩ := prefixo_do_texto x.1 y.1 x.2.1 y.2.1 _ _ h1
  obtain ⟨a, b, c⟩ := x
  obtain ⟨a2, b2, c2⟩ := y
  cases c with
  | mk n d g =>
    cases c2 with
    | mk n2 d2 g2 =>
      simp only at ha hu hn h2 h3
      rw [ha, hu, String.ext hn, String.ext h2, h3]

/-- The text of the rendering of a tree, as pieces. -/
theorem textoSaida_desenha (r : Registro) (ts : List (Arvore Registro)) :
    (textoSaida (desenha (.no r ts))).data
      = ((r.peca :: (esbocoFilhos ts []).map Entrada.peca).map Peca.texto).flatten := by
  have h := desenhaFilhos_esboco ts []
  rw [segmentos_nil] at h
  simp only [textoSaida, desenha, h, String.data_join, List.map_cons, List.map_map,
    List.flatten_cons, Registro.texto_peca_raiz]
  congr 2
  apply List.map_congr_left
  intro x _
  simp [Entrada.texto_peca_entrada]

/-- Trees with readable fields are determined by the text of their rendering. -/
theorem desenha_inj (t t2 : Arvore Registro) (h : t.Limpa) (h2 : t2.Limpa)
    (heq : textoSaida (desenha t) = textoSaida (desenha t2)) : t = t2 := by
  cases t with
  | no r ts =>
    cases t2 with
    | no r2 ts2 =>
      have hd := congrArg String.data heq
      rw [textoSaida_desenha, textoSaida_desenha] at hd
      have hlimpo : ∀ (r : Registro) (ts : List (Arvore Registro)), (Arvore.no r ts).Limpa →
          ∀ w ∈ r.peca :: (esbocoFilhos ts []).map Entrada.peca,
            '\n' ∉ w.1 ∧ '(' ∉ w.2.1 := by
        intro r ts hl w hw
        rcases List.mem_cons.mp hw with rfl | hw
        · exact hl r (by simp [Arvore.preOrdem])
        · obtain ⟨x, hx, rfl⟩ := List.mem_map.mp hw
          refine Entrada.peca_limpa x (hl x.2.2 ?_)
          simp only [Arvore.preOrdem, List.mem_cons]
          right
          rw [← esbocoFilhos_registros ts []]
          exact List.mem_map_of_mem _ hx
      have hl := pecas_do_texto _ _ (hlimpo r ts h) (hlimpo r2 ts2 h2) hd
      simp only [List.cons.injEq] at hl
      have hrr : r = r2 := by
        have := hl.1
        simp only [Registro.peca, Prod.mk.injEq] at this
        cases r with
        | mk n d g =>
          cases r2 with
          | mk n2 d2 g2 =>
            simp only at this
            rw [String.ext this.1, String.ext this.2.1, this.2.2]
      have hee := map_inj_nos_membros Entrada.peca _ _
        (fun x _ y _ hxy => entrada_da_peca x y hxy) hl.2
      have hts := esbocoFilhos_inj ts ts2 [] [] [] (by simp) (by simp) (by simpa using hee)
      rw [hrr, hts.1]

/-! ## Claim C4: the rendering read back -/

mutual
theorem imprimirArvoreRec_unico (e : Estado) :
    ∀ (t : ArvoreMem) (q : Ptr), Representa e t q → ∀ n prefixo ultimo s,
      imprimirArvoreRec n e q prefixo ultimo = some s → s = desenhaRec t.dados prefixo ultimo
  | .no (a, r) ts, q, h, n, prefixo, ultimo, s, hs => by
    simp only [Representa] at h
    obtain ⟨rfl, p, hp, rfl, hts⟩ := h
    cases n with
    | zero => simp [imprimirArvoreRec] at hs
    | succ n =>
      simp only [imprimirArvoreRec, hp] at hs
      cases hl : lacoFilhos (fun f eUltimo => imprimirArvoreRec n e f
          (prefixo ++ (if ultimo then "    " else "│   ")) eUltimo) p.filhos.length 0 p.filhos with
      | none => simp [hl] at hs
      | some resto =>
        have := lacoFilhos_unico e ts p.filhos hts n _ p.filhos.length 0 resto (by simp) hl
        simp only [hl, Option.some.injEq] at hs
        rw [← hs, this]
        simp [ArvoreMem.dados, Arvore.mapa, desenhaRec, Pessoa.registro]
theorem lacoFilhos_unico (e : Estado) :
    ∀ (ts : List ArvoreMem) (qs : List Ptr), RepresentaLista e ts qs →
      ∀ n prefixo tamanho i s, i + qs.length = tamanho →
        lacoFilhos (fun f u => imprimirArvoreRec n e f prefixo u) tamanho i qs = some s →
        s = desenhaFilhos (mapaLista Prod.snd ts) prefixo
  | [], qs, h, n, prefixo, tamanho, i, s, _, hs => by
    simp only [RepresentaLista] at h
    subst h
    simp only [lacoFilhos, Option.some.injEq] at hs
    simp [← hs, mapaLista, desenhaFilhos]
  | _ :: _, [], h, _, _, _, _, _, _, _ => by simp [RepresentaLista] at h
  | t :: ts, q :: qs, h, n, prefixo, tamanho, i, s, hi, hs => by
    simp only [RepresentaLista] at h
    have hlen := representaLista_length e ts qs h.2
    have hu : (i + 1 == tamanho) = (mapaLista Prod.snd ts).isEmpty := by
      cases ts with
      | nil => simp at hlen; simp [hlen] at hi; simp [mapaLista, hi]
      | cons t2 ts2 =>
        simp at hlen hi
        simp [mapaLista]
        omega
    simp only [lacoFilhos] at hs
    cases h1 : imprimirArvoreRec n e q prefixo (i + 1 == tamanho) with
    | none => simp [h1] at hs
    | some a =>
      cases h2 : lacoFilhos (fun f u => imprimirArvoreRec n e f prefixo u) tamanho (i + 1) qs with
      | none => simp [h1, h2] at hs
      | some b =>
        have ha := imprimirArvoreRec_unico e t q h.1 n prefixo _ a h1
        have hb := lacoFilhos_unico e ts qs h.2 n prefixo tamanho (i + 1) b
          (by simp at hi; omega) h2
        simp only [h1, h2, Option.some.injEq] at hs
        rw [← hs, ha, hb, hu]
        simp [mapaLista, desenhaFilhos, ArvoreMem.dados]
end

/-- Whatever the budget, when the printer returns on a represented tree it returns the
records of `desenha`. -/
theorem imprimirArvore_unico (e : Estado) (t : ArvoreMem) (q : Ptr) (h : Representa e t q)
    (n : Nat) (s : List Linha) (hs : imprimirArvore n e q = some s) : s = desenha t.dados := by
  cases t with
  | no l ts =>
    obtain ⟨a, r⟩ := l
    simp only [Representa] at h
    obtain ⟨rfl, p, hp, rfl, hts⟩ := h
    simp only [imprimirArvore, hp] at hs
    cases hl : lacoFilhos (fun f eUltimo => imprimirArvoreRec n e f "" eUltimo)
        p.filhos.length 0 p.filhos with
    | none => simp [hl] at hs
    | some resto =>
      have := lacoFilhos_unico e ts p.filhos hts n "" p.filhos.length 0 resto (by simp) hl
      simp only [hl, Option.some.injEq] at hs
      rw [← hs, this]
      simp [ArvoreMem.dados, Arvore.mapa, desenha, Pessoa.registro]

/-- C4 fails as stated. A person "A" with a child "B" and a single person whose name is
"A (d, M)", a newline, the corner glyph and "B" print the same text but differ in shape;
and two single persons, one named "A" born "B (C", one named "A (B" born "C", print the
same text but differ in name and birth date. -/
theorem C4_counterexample :
    (Representa estadoPaiFilho arvorePaiFilho (some 0) ∧
      Representa estadoNomeQuebrado arvoreNomeQuebrado (some 0) ∧
      (imprimirArvore 1 estadoPaiFilho (some 0)).map textoSaida
        = some "A (d, M)\n└── B (d, M)\n" ∧
      (imprimirArvore 1 estadoNomeQuebrado (some 0)).map textoSaida
        = some "A (d, M)\n└── B (d, M)\n" ∧
      arvorePaiFilho.dados ≠ arvoreNomeQuebrado.dados ∧
      arvorePaiFilho.tamanho ≠ arvoreNomeQuebrado.tamanho) ∧
    (Representa estadoParentesesData arvoreParentesesData (some 0) ∧
      Representa estadoParentesesNome arvoreParentesesNome (some 0) ∧
      (imprimirArvore 1 estadoParentesesData (some 0)).map textoSaida
        = some "A (B (C, M)\n" ∧
      (imprimirArvore 1 estadoParentesesNome (some 0)).map textoSaida
        = some "A (B (C, M)\n" ∧
      arvoreParentesesData.dados ≠ arvoreParentesesNome.dados) := by
  refine ⟨⟨?_, ?_, by decide, by decide, ?_, by decide⟩, ?_, ?_, by decide, by decide, ?_⟩
  · simp [Representa, RepresentaLista, arvorePaiFilho, estadoPaiFilho, ler, Pessoa.registro]
  · simp [Representa, RepresentaLista, arvoreNomeQuebrado, estadoNomeQuebrado, ler,
      Pessoa.registro]
  · intro h
    have := congrArg (fun t => t.preOrdem.length) h
    revert this
    decide
  · simp [Representa, RepresentaLista, arvoreParentesesData, estadoParentesesData, ler,
      Pessoa.registro]
  · simp [Representa, RepresentaLista, arvoreParentesesNome, estadoParentesesNome, ler,
      Pessoa.registro]
  · intro h
    have := congrArg (fun t => t.rotulo.nome) h
    revert this
    decide

/-- C4 as amended: for all finite trees in which no name holds a newline and no birth
date holds an opening parenthesis (birth dates may hold newlines, the gender may be any
character), if the printer produces the same output text for both then they have the
same shape, the same child order and the same name, birth date and gender at every
node. -/
theorem C4_same_text_same_tree (e1 e2 : Estado) (t1 t2 : ArvoreMem) (q1 q2 : Ptr)
    (n1 n2 : Nat) (s1 s2 : List Linha)
    (h1 : Representa e1 t1 q1) (h2 : Representa e2 t2 q2)
    (hl1 : t1.dados.Limpa) (hl2 : t2.dados.Limpa)
    (hs1 : imprimirArvore n1 e1 q1 = some s1) (hs2 : imprimirArvore n2 e2 q2 = some s2)
    (heq : textoSaida s1 = textoSaida s2) : t1.dados = t2.dados := by
  rw [imprimirArvore_unico e1 t1 q1 h1 n1 s1 hs1,
    imprimirArvore_unico e2 t2 q2 h2 n2 s2 hs2] at heq
  exact desenha_inj t1.dados t2.dados hl1 hl2 heq

theorem representa_espelho : Representa estadoEspelho arvoreEspelho (some 4) := by
  simp [Representa, RepresentaLista, arvoreEspelho, estadoEspelho, ler, Pessoa.registro]

theorem limpa_exemplo : arvoreExemplo.dados.Limpa := by
  simp [Arvore.Limpa, ArvoreMem.dados, arvoreExemplo, Arvore.mapa, mapaLista, Arvore.preOrdem,
    preOrdemLista, Registro.Limpo]

theorem limpa_espelho : arvoreEspelho.dados.Limpa := by
  simp [Arvore.Limpa, ArvoreMem.dados, arvoreEspelho, Arvore.mapa, mapaLista, Arvore.preOrdem,
    preOrdemLista, Registro.Limpo]

/-- C4 as amended, at the tree of `main` stored at two different sets of addresses. -/
theorem C4_same_text_same_tree_witness : arvoreExemplo.dados = arvoreEspelho.dados :=
  C4_same_text_same_tree estadoExemplo estadoEspelho arvoreExemplo arvoreEspelho
    (some 0) (some 4) 2 2 (desenha arvoreExemplo.dados) (desenha arvoreEspelho.dados)
    representa_exemplo representa_espelho limpa_exemplo limpa_espelho
    (imprimirArvore_representa estadoExemplo arvoreExemplo (some 0) representa_exemplo 2
      (by decide))
    (imprimirArvore_representa estadoEspelho arvoreEspelho (some 4) representa_espelho 2
      (by decide))
    (by decide)

/-! ## Claims C11 and C12: a single person, an absent root -/

/-- C11: for every live person with an empty child sequence, `imprimirArvore` returns
(whatever the recursion budget) exactly one record, with empty prefix and no glyph, and
its text is `name (birthDate, gender)` followed by the newline. -/
theorem C11_single_person_one_line (n : Nat) (e : Estado) (a : Nat) (p : Pessoa)
    (hp : ler e a = some p) (hf : p.filhos = []) :
    ∃ l, imprimirArvore n e (some a) = some [l] ∧
      l.prefixo = "" ∧ l.glifo = "" ∧
      l.texto = p.nome ++ " (" ++ p.dataNascimento ++ ", " ++ String.singleton p.genero
        ++ ")" ++ "\n" ∧
      textoSaida [l] = p.nome ++ " (" ++ p.dataNascimento ++ ", " ++ String.singleton p.genero
        ++ ")" ++ "\n" := by
  refine ⟨⟨"", "", p.nome, p.dataNascimento, p.genero⟩, ?_, rfl, rfl, ?_, ?_⟩
  · simp [imprimirArvore, hp, hf, lacoFilhos]
  · apply String.ext
    simp [Linha.texto]
  · apply String.ext
    simp [textoSaida, Linha.texto]

/-- C11 at the childless person "Tia" of the store of `main`, with no budget at all. -/
theorem C11_single_person_one_line_witness :
    ∃ l, imprimirArvore 0 estadoExemplo (some 2) = some [l] ∧
      l.prefixo = "" ∧ l.glifo = "" ∧
      l.texto = "Tia" ++ " (" ++ "1972-09-20" ++ ", " ++ String.singleton 'F' ++ ")" ++ "\n" ∧
      textoSaida [l] = "Tia" ++ " (" ++ "1972-09-20" ++ ", " ++ String.singleton 'F'
        ++ ")" ++ "\n" :=
  C11_single_person_one_line 0 estadoExemplo 2 ⟨"Tia", "1972-09-20", 'F', some 0, [], none⟩
    (by decide) rfl

/-- C12: with a null root `imprimirArvore` returns at once, whatever the store and the
recursion budget, and writes nothing: no record, the empty text. -/
theorem C12_null_root_no_output (n : Nat) (e : Estado) :
    imprimirArvore n e none = some [] ∧
      (imprimirArvore n e none).map textoSaida = some "" := by
  refine ⟨rfl, ?_⟩
  simp [imprimirArvore, textoSaida, String.join]

/-! ## Claim C13: the printer and its running prefix -/

theorem Linha.texto_prefixar (p : String) (l : Linha) :
    (l.prefixar p).texto = p ++ l.texto := by
  apply String.ext
  simp [Linha.prefixar, Linha.texto]

theorem Linha.prefixar_prefixar (p q : String) (l : Linha) :
    (l.prefixar q).prefixar p = l.prefixar (p ++ q) := by
  simp [Linha.prefixar, String.append_assoc]

/-- The loop commutes with a map applied to what every visit returns. -/
theorem lacoFilhos_map (g : Linha → Linha) (v1 v2 : Ptr → Bool → Option (List Linha))
    (h : ∀ f u, v1 f u = (v2 f u).map (List.map g)) (tamanho : Nat) :
    ∀ (qs : List Ptr) (i : Nat),
      lacoFilhos v1 tamanho i qs = (lacoFilhos v2 tamanho i qs).map (List.map g)
  | [], _ => by simp [lacoFilhos]
  | q :: qs, i => by
    simp only [lacoFilhos, h q, lacoFilhos_map g v1 v2 h tamanho qs (i + 1)]
    cases v2 q (i + 1 == tamanho) with
    | none => rfl
    | some a =>
      cases lacoFilhos v2 tamanho (i + 1) qs with
      | none => rfl
      | some b => simp

/-- For every budget, store, pointer, prefix and flag, the recursive printer with prefix
`p` returns what it returns with the empty prefix, `p` prepended to every record. -/
theorem imprimirArvoreRec_prefixo (e : Estado) :
    ∀ (n : Nat) (q : Ptr) (p : String) (ultimo : Bool),
      imprimirArvoreRec n e q p ultimo
        = (imprimirArvoreRec n e q "" ultimo).map (List.map (Linha.prefixar p))
  | n, none, p, ultimo => by cases n <;> simp [imprimirArvoreRec]
  | 0, some a, p, ultimo => by simp [imprimirArvoreRec]
  | n + 1, some a, p, ultimo => by
    simp only [imprimirArvoreRec]
    cases ler e a with
    | none => rfl
    | some no =>
      have hl := lacoFilhos_map (Linha.prefixar p)
        (fun f u => imprimirArvoreRec n e f (p ++ (if ultimo then "    " else "│   ")) u)
        (fun f u => imprimirArvoreRec n e f ("" ++ (if ultimo then "    " else "│   ")) u)
        (by
          intro f u
          beta_reduce
          rw [imprimirArvoreRec_prefixo e n f (p ++ (if ultimo then "    " else "│   ")) u,
            imprimirArvoreRec_prefixo e n f ("" ++ (if ultimo then "    " else "│   ")) u]
          cases imprimirArvoreRec n e f "" u with
          | none => rfl
          | some s =>
            simp only [Option.map_some', List.map_map, String.empty_append]
            congr 2
            funext l
            simp [Linha.prefixar_prefixar])
        no.filhos.length no.filhos 0
      simp only [hl]
      cases lacoFilhos
          (fun f u => imprimirArvoreRec n e f ("" ++ (if ultimo then "    " else "│   ")) u)
          no.filhos.length 0 no.filhos with
      | none => rfl
      | some resto => simp [Linha.prefixar]

/-- C13: for every finite subtree, every prefix `p` and every flag, the recursive printer
returns (for every sufficient recursion budget) with prefix `p` exactly the records it
returns with the empty prefix, in the same order, each with `p` prepended to its prefix,
so that each line is the old line with `p` in front; and for every budget whatsoever the
two calls agree in this way, returning or not. -/
theorem C13_prefix_homomorphism (e : Estado) (t : ArvoreMem) (no : Ptr)
    (h : Representa e t no) (p : String) (ultimo : Bool) :
    ∃ s, (∀ k, imprimirArvoreRec (t.altura + k) e no "" ultimo = some s) ∧
      (∀ k, imprimirArvoreRec (t.altura + k) e no p ultimo
        = some (s.map (Linha.prefixar p))) ∧
      (s.map (Linha.prefixar p)).map Linha.texto = s.map (fun l => p ++ l.texto) ∧
      (∀ n, imprimirArvoreRec n e no p ultimo
        = (imprimirArvoreRec n e no "" ultimo).map (List.map (Linha.prefixar p))) := by
  refine ⟨desenhaRec t.dados "" ultimo, fun k => ?_, fun k => ?_, ?_, fun n => ?_⟩
  · exact imprimirArvoreRec_representa e t no h _ (Nat.le_add_right _ _) "" ultimo
  · rw [imprimirArvoreRec_prefixo e _ no p ultimo,
      imprimirArvoreRec_representa e t no h _ (Nat.le_add_right _ _) "" ultimo]
    rfl
  · simp [Linha.texto_prefixar]
  · exact imprimirArvoreRec_prefixo e n no p ultimo

/-- C13 at the subtree "Pai" of the store of `main`, with the prefix of a first child. -/
theorem C13_prefix_homomorphism_witness :
    ∃ s, (∀ k, imprimirArvoreRec (arvoreSubExemplo.altura + k) estadoExemplo (some 1) "" false
          = some s) ∧
      (∀ k, imprimirArvoreRec (arvoreSubExemplo.altura + k) estadoExemplo (some 1) "│   " false
        = some (s.map (Linha.prefixar "│   "))) ∧
      (s.map (Linha.prefixar "│   ")).map Linha.texto = s.map (fun l => "│   " ++ l.texto) ∧
      (∀ n, imprimirArvoreRec n estadoExemplo (some 1) "│   " false
        = (imprimirArvoreRec n estadoExemplo (some 1) "" false).map
            (List.map (Linha.prefixar "│   "))) :=
  C13_prefix_homomorphism estadoExemplo arvoreSubExemplo (some 1)
    (by simp [Representa, RepresentaLista, arvoreSubExemplo, estadoExemplo, ler,
      Pessoa.registro]) "│   " false

/-! ## Claim C14: the frame of `adicionarFilho` -/

/-- C14: for every store and two distinct live objects `p` and `f`, `adicionarFilho(p, f)`
returns and changes only the child sequence of `p` and the parent reference of `f`: `p`
keeps its name, birth date, gender, parent reference (and `familiaOrigem`), `f` keeps its
name, birth date, gender, child sequence (and `familiaOrigem`), and every other cell of
the store, live or dead, is as before. -/
theorem C14_adicionarFilho_frame (e : Estado) (p f : Nat) (rp rf : Pessoa)
    (hp : ler e p = some rp) (hf : ler e f = some rf) (hpf : p ≠ f) :
    ∃ e1, adicionarFilho e (some p) (some f) = some e1 ∧
      ler e1 p = some { rp with filhos := rp.filhos ++ [some f] } ∧
      ler e1 f = some { rf with pai := some p } ∧
      (∃ rp1, ler e1 p = some rp1 ∧ rp1.nome = rp.nome ∧
        rp1.dataNascimento = rp.dataNascimento ∧ rp1.genero = rp.genero ∧ rp1.pai = rp.pai ∧
        rp1.familiaOrigem = rp.familiaOrigem) ∧
      (∃ rf1, ler e1 f = some rf1 ∧ rf1.nome = rf.nome ∧
        rf1.dataNascimento = rf.dataNascimento ∧ rf1.genero = rf.genero ∧
        rf1.filhos = rf.filhos ∧ rf1.familiaOrigem = rf.familiaOrigem) ∧
      (∀ a, a ≠ p → a ≠ f → ler e1 a = ler e a) ∧
      e1.length = e.length := by
  obtain ⟨rf1, _, _, h3⟩ := adicionarFilho_vivos e p f rp rf hp hf
  have hlen : (escrever (escrever e p { rp with filhos := rp.filhos ++ [some f] }) f
      { rf1 with pai := some p }).length = e.length := by
    simp [escrever]
  generalize escrever (escrever e p { rp with filhos := rp.filhos ++ [some f] }) f
      { rf1 with pai := some p } = e1 at h3 hlen
  have hler := ler_adicionarFilho e e1 p f rp rf hp hf h3
  have h1 : ler e1 p = some { rp with filhos := rp.filhos ++ [some f] } := by
    rw [hler p, hp]
    simp [hpf]
  have h2 : ler e1 f = some { rf with pai := some p } := by
    rw [hler f, hf]
    have : ¬ f = p := fun h => hpf h.symm
    simp [this]
  refine ⟨e1, h3, h1, h2, ⟨_, h1, rfl, rfl, rfl, rfl, rfl⟩, ⟨_, h2, rfl, rfl, rfl, rfl, rfl⟩,
    ?_, hlen⟩
  intro a hap haf
  rw [hler a]
  cases ler e a <;> simp [hap, haf]

/-- C14 at the store of `main`: attaching the person at address 2 to the one at 3. -/
theorem C14_adicionarFilho_frame_witness :
    ∃ e1, adicionarFilho estadoExemplo (some 3) (some 2) = some e1 ∧
      ler e1 3 = some { (⟨"Filho", "1995-03-10", 'M', some 1, [], none⟩ : Pessoa) with
        filhos := (⟨"Filho", "1995-03-10", 'M', some 1, [], none⟩ : Pessoa).filhos ++ [some 2] } ∧
      ler e1 2 = some { (⟨"Tia", "1972-09-20", 'F', some 0, [], none⟩ : Pessoa) with
        pai := some 3 } ∧
      (∃ rp1, ler e1 3 = some rp1 ∧
        rp1.nome = (⟨"Filho", "1995-03-10", 'M', some 1, [], none⟩ : Pessoa).nome ∧
        rp1.dataNascimento
          = (⟨"Filho", "1995-03-10", 'M', some 1, [], none⟩ : Pessoa).dataNascimento ∧
        rp1.genero = (⟨"Filho", "1995-03-10", 'M', some 1, [], none⟩ : Pessoa).genero ∧
        rp1.pai = (⟨"Filho", "1995-03-10", 'M', some 1, [], none⟩ : Pessoa).pai ∧
        rp1.familiaOrigem
          = (⟨"Filho", "1995-03-10", 'M', some 1, [], none⟩ : Pessoa).familiaOrigem) ∧
      (∃ rf1, ler e1 2 = some rf1 ∧
        rf1.nome = (⟨"Tia", "1972-09-20", 'F', some 0, [], none⟩ : Pessoa).nome ∧
        rf1.dataNascimento
          = (⟨"Tia", "1972-09-20", 'F', some 0, [], none⟩ : Pessoa).dataNascimento ∧
        rf1.genero = (⟨"Tia", "1972-09-20", 'F', some 0, [], none⟩ : Pessoa).genero ∧
        rf1.filhos = (⟨"Tia", "1972-09-20", 'F', some 0, [], none⟩ : Pessoa).filhos ∧
        rf1.familiaOrigem
          = (⟨"Tia", "1972-09-20", 'F', some 0, [], none⟩ : Pessoa).familiaOrigem) ∧
      (∀ a, a ≠ 3 → a ≠ 2 → ler e1 a = ler estadoExemplo a) ∧
      e1.length = estadoExemplo.length :=
  C14_adicionarFilho_frame estadoExemplo 3 2 ⟨"Filho", "1995-03-10", 'M', some 1, [], none⟩
    ⟨"Tia", "1972-09-20", 'F', some 0, [], none⟩ (by decide) (by decide) (by decide)

/-! ## Claim C15: the printer does not read the parent references -/

theorem impresso_de_leitura (e1 e2 : Estado)
    (h : ∀ a, (ler e1 a).map Pessoa.impresso = (ler e2 a).map Pessoa.impresso) (a : Nat) :
    (ler e1 a = none ∧ ler e2 a = none) ∨
      ∃ p1 p2, ler e1 a = some p1 ∧ ler e2 a = some p2 ∧ p1.nome = p2.nome ∧
        p1.dataNascimento = p2.dataNascimento ∧ p1.genero = p2.genero ∧
        p1.filhos = p2.filhos := by
  have ha := h a
  cases h1 : ler e1 a with
  | none =>
    cases h2 : ler e2 a with
    | none => exact Or.inl ⟨rfl, rfl⟩
    | some p2 => simp [h1, h2] at ha
  | some p1 =>
    cases h2 : ler e2 a with
    | none => simp [h1, h2] at ha
    | some p2 =>
      simp only [h1, h2, Option.map_some', Option.some.injEq, Pessoa.impresso,
        Prod.mk.injEq] at ha
      exact Or.inr ⟨p1, p2, rfl, rfl, ha.1, ha.2.1, ha.2.2.1, ha.2.2.2⟩

/-- For every budget the recursive printer returns the same on two stores that agree on
names, birth dates, genders and child sequences. -/
theorem imprimirArvoreRec_sem_pai (e1 e2 : Estado)
    (h : ∀ a, (ler e1 a).map Pessoa.impresso = (ler e2 a).map Pessoa.impresso) :
    ∀ (n : Nat) (q : Ptr) (prefixo : String) (ultimo : Bool),
      imprimirArvoreRec n e1 q prefixo ultimo = imprimirArvoreRec n e2 q prefixo ultimo
  | n, none, _, _ => by cases n <;> simp [imprimirArvoreRec]
  | 0, some a, _, _ => by simp [imprimirArvoreRec]
  | n + 1, some a, prefixo, ultimo => by
    have hv : (fun f u => imprimirArvoreRec n e1 f
          (prefixo ++ (if ultimo then "    " else "│   ")) u)
        = (fun f u => imprimirArvoreRec n e2 f
          (prefixo ++ (if ultimo then "    " else "│   ")) u) := by
      funext f u
      exact imprimirArvoreRec_sem_pai e1 e2 h n f _ u
    rcases impresso_de_leitura e1 e2 h a with ⟨h1, h2⟩ | ⟨p1, p2, h1, h2, hn, hd, hg, hf⟩
    · simp [imprimirArvoreRec, h1, h2]
    · simp only [imprimirArvoreRec, h1, h2, hv, hn, hd, hg, hf]

/-- For every budget the printer returns the same on two stores that agree on names,
birth dates, genders and child sequences. -/
theorem imprimirArvore_sem_pai (e1 e2 : Estado)
    (h : ∀ a, (ler e1 a).map Pessoa.impresso = (ler e2 a).map Pessoa.impresso)
    (n : Nat) (q : Ptr) : imprimirArvore n e1 q = imprimirArvore n e2 q := by
  cases q with
  | none => rfl
  | some a =>
    have hv : (fun f u => imprimirArvoreRec n e1 f "" u)
        = (fun f u => imprimirArvoreRec n e2 f "" u) := by
      funext f u
      exact imprimirArvoreRec_sem_pai e1 e2 h n f "" u
    rcases impresso_de_leitura e1 e2 h a with ⟨h1, h2⟩ | ⟨p1, p2, h1, h2, hn, hd, hg, hf⟩
    · simp [imprimirArvore, h1, h2]
    · simp only [imprimirArvore, h1, h2, hv, hn, hd, hg, hf]

/-- C15: for any two stores that agree on the name, birth date, gender and child
sequence of every person and differ arbitrarily in the parent references (and in
`familiaOrigem`), `imprimirArvore` on a finite tree returns, for every sufficient
recursion budget, the same records and so the same output text on both; and for every
budget and root whatsoever the two calls agree, returning or not. -/
theorem C15_output_independent_of_pai (e1 e2 : Estado) (t : ArvoreMem) (raiz : Ptr)
    (h : ∀ a, (ler e1 a).map Pessoa.impresso = (ler e2 a).map Pessoa.impresso)
    (hrep : Representa e1 t raiz) :
    ∃ s, (∀ k, imprimirArvore (t.altura + k) e1 raiz = some s) ∧
      (∀ k, imprimirArvore (t.altura + k) e2 raiz = some s) ∧
      (∀ k, (imprimirArvore (t.altura + k) e1 raiz).map textoSaida
        = (imprimirArvore (t.altura + k) e2 raiz).map textoSaida) ∧
      (∀ n q, imprimirArvore n e1 q = imprimirArvore n e2 q) := by
  have h1 : ∀ k, imprimirArvore (t.altura + k) e1 raiz = some (desenha t.dados) :=
    fun k => imprimirArvore_representa e1 t raiz hrep _ (alturaLista_filhos_le t k)
  refine ⟨desenha t.dados, h1, fun k => ?_, fun k => ?_, imprimirArvore_sem_pai e1 e2 h⟩
  · rw [← imprimirArvore_sem_pai e1 e2 h, h1 k]
  · rw [imprimirArvore_sem_pai e1 e2 h]

/-- C15 at the store of `main` and the same store with other parent references. -/
theorem C15_output_independent_of_pai_witness :
    ∃ s, (∀ k, imprimirArvore (arvoreExemplo.altura + k) estadoExemplo (some 0) = some s) ∧
      (∀ k, imprimirArvore (arvoreExemplo.altura + k) estadoPaisTrocados (some 0) = some s) ∧
      (∀ k, (imprimirArvore (arvoreExemplo.altura + k) estadoExemplo (some 0)).map textoSaida
        = (imprimirArvore (arvoreExemplo.altura + k) estadoPaisTrocados (some 0)).map
            textoSaida) ∧
      (∀ n q, imprimirArvore n estadoExemplo q = imprimirArvore n estadoPaisTrocados q) :=
  C15_output_independent_of_pai estadoExemplo estadoPaisTrocados arvoreExemplo (some 0)
    (by
      intro a
      have : a = 0 ∨ a = 1 ∨ a = 2 ∨ a = 3 ∨ a = 4 ∨ 5 ≤ a := by omega
      rcases this with rfl | rfl | rfl | rfl | rfl | h5
      · rfl
      · rfl
      · rfl
      · rfl
      · rfl
      · simp only [ler]
        rw [List.getElem?_eq_none (by simpa [estadoExemplo] using h5),
          List.getElem?_eq_none (by simpa [estadoPaisTrocados] using h5)])
    representa_exemplo

/-! ## Claim C3: one line per person, in pre-order -/

/-- The texts of the rendering of a tree: one per node, in pre-order, each made of a
lead-in, the node's `name (birthDate, gender)` and a newline; the lead-in of the root is
empty, every other is a run of segments followed by a glyph. -/
theorem desenha_linhas (t : Arvore Registro) :
    ∃ leads : List String, leads.length = t.preOrdem.length ∧ leads.head? = some "" ∧
      (∀ lead ∈ leads.tail, ∃ anc u, lead = segmentos anc ++ glifo u) ∧
      (desenha t).map Linha.texto
        = (List.zip leads t.preOrdem).map (fun x => x.1 ++ x.2.base ++ "\n") := by
  cases t with
  | no r ts =>
    have h := desenhaFilhos_esboco ts []
    rw [segmentos_nil] at h
    have hreg := esbocoFilhos_registros ts []
    refine ⟨"" :: (esbocoFilhos ts []).map (fun x => segmentos x.1 ++ glifo x.2.1), ?_, rfl,
      ?_, ?_⟩
    · have := congrArg List.length hreg
      simp only [List.length_map] at this
      simp [Arvore.preOrdem, this]
    · intro lead hl
      obtain ⟨x, _, rfl⟩ := List.mem_map.mp hl
      exact ⟨x.1, x.2.1, rfl⟩
    · simp only [desenha, h, Arvore.preOrdem, ← hreg, List.zip_cons_cons, List.map_cons,
        List.zip_map', List.map_map]
      congr 1
      · rw [Linha.texto_eq]
        apply String.ext
        simp
      · apply List.map_congr_left
        intro x _
        exact Linha.texto_eq _ _ _

/-- C3: on every finite tree the printer returns (for every sufficient recursion budget)
exactly one line per person, in depth-first pre-order with children in stored order: the
k-th text written is a lead-in (empty for the root, segments and a glyph otherwise)
followed by `name (birthDate, gender)` of the k-th person of the pre-order listing and a
newline; the output text is the concatenation of these lines; the field triples of the
records are the pre-order listing, and the number of lines is the number of persons. -/
theorem C3_preorder_one_line_per_person (e : Estado) (t : ArvoreMem) (raiz : Ptr)
    (h : Representa e t raiz) :
    ∃ s, (∀ k, imprimirArvore (t.altura + k) e raiz = some s) ∧
      s.length = t.tamanho ∧
      s.map Linha.registro = t.dados.preOrdem ∧
      s.map Linha.registro = t.preOrdem.map Prod.snd ∧
      ∃ leads : List String, leads.length = t.tamanho ∧ leads.head? = some "" ∧
        (∀ lead ∈ leads.tail, ∃ anc u, lead = segmentos anc ++ glifo u) ∧
        s.map Linha.texto
          = (List.zip leads (t.preOrdem.map Prod.snd)).map
              (fun x => x.1 ++ x.2.nome ++ " (" ++ x.2.dataNascimento ++ ", "
                ++ String.singleton x.2.genero ++ ")" ++ "\n") ∧
        textoSaida s
          = String.join ((List.zip leads (t.preOrdem.map Prod.snd)).map
              (fun x => x.1 ++ x.2.nome ++ " (" ++ x.2.dataNascimento ++ ", "
                ++ String.singleton x.2.genero ++ ")" ++ "\n")) := by
  have hpre : t.dados.preOrdem = t.preOrdem.map Prod.snd := by
    rw [ArvoreMem.dados, Arvore.preOrdem_mapa]
  have hlen : (desenha t.dados).length = t.tamanho := by
    have := congrArg List.length (desenha_registro t.dados)
    simpa [hpre, Arvore.tamanho] using this
  obtain ⟨leads, hl1, hl2, hl3, hl4⟩ := desenha_linhas t.dados
  have hfun : (fun x : String × Registro => x.1 ++ x.2.base ++ "\n")
      = (fun x => x.1 ++ x.2.nome ++ " (" ++ x.2.dataNascimento ++ ", "
          ++ String.singleton x.2.genero ++ ")" ++ "\n") := by
    funext x
    apply String.ext
    simp [Registro.base]
  rw [hpre, hfun] at hl4
  refine ⟨desenha t.dados, fun k => ?_, hlen, desenha_registro _, ?_, leads, ?_, hl2, hl3,
    hl4, ?_⟩
  · exact imprimirArvore_representa e t raiz h _ (alturaLista_filhos_le t k)
  · rw [desenha_registro, hpre]
  · rw [hl1, hpre]
    simp [Arvore.tamanho]
  · rw [textoSaida, hl4]

/-- C3 at the tree of `main`. -/
theorem C3_preorder_one_line_per_person_witness :
    Representa estadoExemplo arvoreExemplo (some 0) ∧
    ∃ s, (∀ k, imprimirArvore (arvoreExemplo.altura + k) estadoExemplo (some 0) = some s) ∧
      s.length = arvoreExemplo.tamanho ∧
      s.map Linha.registro = arvoreExemplo.dados.preOrdem ∧
      s.map Linha.registro = arvoreExemplo.preOrdem.map Prod.snd ∧
      ∃ leads : List String, leads.length = arvoreExemplo.tamanho ∧ leads.head? = some "" ∧
        (∀ lead ∈ leads.tail, ∃ anc u, lead = segmentos anc ++ glifo u) ∧
        s.map Linha.texto
          = (List.zip leads (arvoreExemplo.preOrdem.map Prod.snd)).map
              (fun x => x.1 ++ x.2.nome ++ " (" ++ x.2.dataNascimento ++ ", "
                ++ String.singleton x.2.genero ++ ")" ++ "\n") ∧
        textoSaida s
          = String.join ((List.zip leads (arvoreExemplo.preOrdem.map Prod.snd)).map
              (fun x => x.1 ++ x.2.nome ++ " (" ++ x.2.dataNascimento ++ ", "
                ++ String.singleton x.2.genero ++ ")" ++ "\n")) :=
  ⟨representa_exemplo,
    C3_preorder_one_line_per_person estadoExemplo arvoreExemplo (some 0) representa_exemplo⟩

end Genealogia
